import Mathlib

/-!
Shallow embedding of `src/server.js` (the geocoding/routing proxy, first
variant of the file): the input classifier `isCoordinates`, the coordinate
parser `parseCoordinates`, the geocoding client `geocodePlace`, and the
HTTP handlers for `/geocode`, `/route`, `/save-route` and `/routes`.

JavaScript numbers are modelled by `JSNum`: `NaN`, signed infinity, or a
finite value idealised as an exact rational (no 52-bit mantissa rounding);
overflow of the IEEE double range is modelled exactly: a parsed magnitude
of at least `2 ^ 1024 - 2 ^ 970` becomes an infinity, as in ECMAScript.
Strings are processed as `List Char`; the external `fetch` calls are
supplied as oracle functions describing the backend behaviour.
-/

set_option maxRecDepth 8192

attribute [local semireducible] Rat.add Rat.mul Rat.sub Rat.inv

deriving instance DecidableEq for Except

/-- ECMAScript whitespace and line terminators, as skipped by
`String.prototype.trim` and by `parseFloat`. -/
def isJsWhitespace (c : Char) : Bool :=
  decide (c.toNat ∈ [0x9, 0xA, 0xB, 0xC, 0xD, 0x20, 0xA0, 0x1680,
      0x2028, 0x2029, 0x202F, 0x205F, 0x3000, 0xFEFF])
  || (decide (0x2000 ≤ c.toNat) && decide (c.toNat ≤ 0x200A))

/-- Decimal digit `[0-9]`, the character class `\d` of the classifier regex
and the DecimalDigit class of the `parseFloat` grammar. -/
def isDig (c : Char) : Bool :=
  decide (48 ≤ c.toNat) && decide (c.toNat ≤ 57)

/-- `s.trim()` on a character list: drop whitespace from both ends. -/
def jsTrimList (cs : List Char) : List Char :=
  ((cs.dropWhile isJsWhitespace).reverse.dropWhile isJsWhitespace).reverse

/-- `s.trim()` on strings. -/
def jsTrim (s : String) : String :=
  String.mk (jsTrimList s.data)

/-- `s.split(',')`: split at every comma; `"" ↦ [""]`, separators kept out. -/
def splitComma : List Char → List (List Char)
  | [] => [[]]
  | c :: cs =>
    if c = ',' then [] :: splitComma cs
    else
      match splitComma cs with
      | [] => [[c]]
      | p :: ps => (c :: p) :: ps

/-- Numeric value of a digit character. -/
def digitVal (c : Char) : Nat := c.toNat - 48

/-- Value of a big-endian digit string. -/
def natOfDigits (ds : List Char) : Nat :=
  ds.foldl (fun acc c => 10 * acc + digitVal c) 0

/-- Little-endian decimal digits of `n`, with `fuel` bounding the recursion. -/
def digitsAux : Nat → Nat → List Char
  | 0, _ => []
  | fuel + 1, n =>
    if n < 10 then [Char.ofNat (48 + n)]
    else Char.ofNat (48 + n % 10) :: digitsAux fuel (n / 10)

/-- Big-endian decimal digit characters of `n` (used by the embedding of
number-to-string conversion). -/
def natToDigitChars (n : Nat) : List Char :=
  (digitsAux (n + 1) n).reverse

/-- A JavaScript number: `NaN`, a signed infinity, or a finite value
idealised as an exact rational. -/
inductive JSNum where
  | nan : JSNum
  | inf : Bool → JSNum
  | fin : ℚ → JSNum
deriving DecidableEq

/-- `Number.isFinite`. -/
def jsIsFinite : JSNum → Bool
  | .fin _ => true
  | _ => false

/-- Magnitudes of at least `2 ^ 1024 - 2 ^ 970` round to infinity when
converted to an IEEE double (ECMAScript number conversion). -/
def overflowBound : ℕ := 2 ^ 1024 - 2 ^ 970

/-- Package a parsed non-negative magnitude and a sign into a `JSNum`,
overflowing to infinity outside the double range. -/
def mkNum (neg : Bool) (q : ℚ) : JSNum :=
  if (overflowBound : ℚ) ≤ q then .inf neg
  else .fin (if neg then -q else q)

/-- Exponent digits after `e`/`E` and an optional sign: the exponent
contributes only when at least one digit follows (longest valid prefix). -/
def expTail (r : List Char) : Int :=
  match r with
  | c :: t =>
    if c = '-' then
      (if (t.takeWhile isDig).isEmpty then 0 else -(natOfDigits (t.takeWhile isDig) : Int))
    else if c = '+' then
      (if (t.takeWhile isDig).isEmpty then 0 else (natOfDigits (t.takeWhile isDig) : Int))
    else
      (if ((c :: t).takeWhile isDig).isEmpty then 0
       else (natOfDigits ((c :: t).takeWhile isDig) : Int))
  | [] => 0

/-- Optional exponent part at the current position. -/
def expOf (cs : List Char) : Int :=
  match cs with
  | c :: r => if c = 'e' ∨ c = 'E' then expTail r else 0
  | [] => 0

/-- Scale a mantissa by `10 ^ e`. -/
def applyExp (q : ℚ) (e : Int) : ℚ :=
  if 0 ≤ e then q * 10 ^ e.toNat else q / 10 ^ (-e).toNat

/-- Longest valid unsigned decimal-literal prefix of `cs`
(`DecimalDigits . DecimalDigits? Exp?` or `. DecimalDigits Exp?` or
`DecimalDigits Exp?`), returning its mathematical value, or `none` when no
prefix is a valid literal. -/
def parseUnsigned (cs : List Char) : Option ℚ :=
  let d1 := cs.takeWhile isDig
  match cs.dropWhile isDig with
  | c :: r2 =>
    if c = '.' then
      let d2 := r2.takeWhile isDig
      if d1.isEmpty && d2.isEmpty then none
      else some (applyExp ((natOfDigits d1 : ℚ) + (natOfDigits d2 : ℚ) / 10 ^ d2.length)
        (expOf (r2.dropWhile isDig)))
    else if d1.isEmpty then none
    else some (applyExp (natOfDigits d1 : ℚ) (expOf (c :: r2)))
  | [] =>
    if d1.isEmpty then none
    else some (applyExp (natOfDigits d1 : ℚ) 0)

/-- The characters of the literal `Infinity`. -/
def infinityChars : List Char := ['I', 'n', 'f', 'i', 'n', 'i', 't', 'y']

/-- Body of `parseFloat` after the optional sign has been consumed. -/
def parseSigned (neg : Bool) (r : List Char) : JSNum :=
  if r.take 8 = infinityChars then .inf neg
  else
    match parseUnsigned r with
    | none => .nan
    | some q => mkNum neg q

/-- ECMAScript `parseFloat` on a character list: skip leading whitespace,
take an optional sign, then the longest valid decimal-literal prefix
(`Infinity` allowed); `NaN` when no prefix parses. -/
def parseFloatL (cs0 : List Char) : JSNum :=
  match cs0.dropWhile isJsWhitespace with
  | c :: r =>
    if c = '-' then parseSigned true r
    else if c = '+' then parseSigned false r
    else parseSigned false (c :: r)
  | [] => parseSigned false []

/-- `parseFloat` on strings. -/
def parseFloat (s : String) : JSNum :=
  parseFloatL s.data

/-- Full-string match of `\d+\.?\d*`: one or more digits, an optional dot,
zero or more digits. -/
def matchNumBody (r : List Char) : Bool :=
  !(r.takeWhile isDig).isEmpty &&
    (match r.dropWhile isDig with
     | [] => true
     | c :: fs => decide (c = '.') && fs.all isDig)

/-- Full-string match of `-?\d+\.?\d*`: an optional minus then the body
(`matchNumBody []` is `false`, so the empty token is still rejected). -/
def matchNumTok : List Char → Bool
  | [] => false
  | c :: r => if c = '-' then matchNumBody r else matchNumBody (c :: r)

/-- `isCoordinates` of `src/server.js` on a character list: the trimmed
input must entirely match `^-?\d+\.?\d*,-?\d+\.?\d*$`.  The matcher is a
total function (the classifier never raises). -/
def isCoordinatesL (cs : List Char) : Bool :=
  let t := jsTrimList cs
  match t.dropWhile (fun c => !(c = ',' : Bool)) with
  | _ :: b => matchNumTok (t.takeWhile (fun c => !(c = ',' : Bool))) && matchNumTok b
  | [] => false

/-- `isCoordinates(input)`: regex test of `^-?\d+\.?\d*,-?\d+\.?\d*$`
against `input.trim()`. -/
def isCoordinates (input : String) : Bool :=
  isCoordinatesL input.data

/-- The object `{ lat, lon }` returned by `parseCoordinates`. -/
structure Coord where
  lat : JSNum
  lon : JSNum
deriving DecidableEq

/-- `parseCoordinates(coordStr)`: split on commas, trim and `parseFloat`
each part; throw `Invalid coordinate format` unless there are exactly two
parts and both values are finite. -/
def parseCoordinates (coordStr : String) : Except String Coord :=
  match (splitComma coordStr.data).map (fun p => parseFloatL (jsTrimList p)) with
  | [a, b] =>
    if jsIsFinite a && jsIsFinite b then .ok ⟨a, b⟩
    else .error "Invalid coordinate format"
  | _ => .error "Invalid coordinate format"

/-- Exponent of the prime `p` in `d`, with explicit fuel. -/
def pmultAux : Nat → Nat → Nat → Nat
  | 0, _, _ => 0
  | fuel + 1, p, d =>
    if 2 ≤ p ∧ 0 < d ∧ d % p = 0 then pmultAux fuel p (d / p) + 1 else 0

/-- Exponent of the prime `p` in `d`. -/
def pmult (p d : Nat) : Nat := pmultAux d p d

/-- The digits of `m` with a decimal point `k` places from the right,
zero-padded on the left so that at least one digit precedes the point. -/
def renderWithPoint (m k : Nat) : List Char :=
  let ds := natToDigitChars m
  let padded := List.replicate (k + 1 - ds.length) '0' ++ ds
  padded.take (padded.length - k) ++ '.' :: padded.drop (padded.length - k)

/-- Decimal rendering of the positive rational `n / d` (lowest terms, `d` a
product of twos and fives): the digits of `n * 10 ^ k / d` with a decimal
point `k` places from the right, where `k` is the smallest power of ten
divisible by `d`. -/
def renderDigits (n d : Nat) : List Char :=
  let a := pmult 2 d
  let b := pmult 5 d
  let k := max a b
  if k = 0 then natToDigitChars n
  else renderWithPoint (n * 2 ^ (k - a) * 5 ^ (k - b)) k

/-- ECMAScript number-to-string conversion (as used by the template
literals building the lon/lat strings), idealised on exact rationals: sign
then shortest plain decimal expansion.  The exponential forms JavaScript
uses outside `[1e-6, 1e21)` are not modelled. -/
def jsNumToString : JSNum → String
  | .nan => "NaN"
  | .inf true => "-Infinity"
  | .inf false => "Infinity"
  | .fin q =>
    if q = 0 then "0"
    else String.mk ((if q < 0 then ['-'] else []) ++ renderDigits q.num.natAbs q.den)

/-- One raw geocoding result, with `lat`/`lon` as the JSON strings the
backend sent (the client applies `parseFloat` to them). -/
structure GeoHit where
  lat : String
  lon : String
  display_name : String
deriving DecidableEq

/-- Behaviour of one geocoding `fetch`: the transport fails with a message,
or an HTTP response arrives with success flag `ok` and a result list
(an absent or null JSON array behaves like the empty list). -/
inductive GeoResp where
  | transportFail : String → GeoResp
  | httpResp : Bool → List GeoHit → GeoResp
deriving DecidableEq

/-- The object `geocodePlace` resolves to. -/
structure Geocoded where
  lat : JSNum
  lon : JSNum
  display_name : String
deriving DecidableEq

/-- `geocodePlace(placeName)` with the backend behaviour supplied as the
oracle `fetchGeo`: errors of the transport, of a non-ok status and of an
empty result list are wrapped by the catch block into
`Geocoding failed for "name": inner`. -/
def geocodePlace (fetchGeo : String → GeoResp) (placeName : String) :
    Except String Geocoded :=
  match fetchGeo placeName with
  | .transportFail msg =>
      .error ("Geocoding failed for \"" ++ placeName ++ "\": " ++ msg)
  | .httpResp false _ =>
      .error ("Geocoding failed for \"" ++ placeName ++ "\": Geocoding service error")
  | .httpResp true [] =>
      .error ("Geocoding failed for \"" ++ placeName ++ "\": No location found for \""
        ++ placeName ++ "\"")
  | .httpResp true (r :: _) =>
      .ok ⟨parseFloat r.lat, parseFloat r.lon, r.display_name⟩

/-- Body of a `/geocode` response. -/
inductive GeocodeReply where
  | found : JSNum → JSNum → String → GeocodeReply
  | failure : String → GeocodeReply
deriving DecidableEq

/-- JavaScript falsiness of an optional query parameter: absent or empty. -/
def jsFalsyOpt : Option String → Bool
  | none => true
  | some s => s.isEmpty

/-- The `/geocode` endpoint: 400 when `q` is falsy, otherwise the result of
`geocodePlace` as 200, or its error message as 400. -/
def geocodeHandler (fetchGeo : String → GeoResp) (q : Option String) :
    Nat × GeocodeReply :=
  match q with
  | none => (400, .failure "Query parameter \"q\" is required")
  | some qs =>
    if qs.isEmpty then (400, .failure "Query parameter \"q\" is required")
    else
      match geocodePlace fetchGeo qs with
      | .ok g => (200, .found g.lat g.lon g.display_name)
      | .error e => (400, .failure e)

/-- One raw route of the routing backend response. -/
structure RouteRaw where
  distance : JSNum
  duration : JSNum
  geometry : String
deriving DecidableEq

/-- Behaviour of one routing `fetch` (an absent `routes` field behaves like
the empty list in the `!j.routes || !j.routes.length` check). -/
inductive RouteResp where
  | transportFail : String → RouteResp
  | httpResp : Bool → List RouteRaw → RouteResp
deriving DecidableEq

/-- An outbound call of the `/route` handler. -/
inductive Call where
  | geocode : String → Call
  | routeFetch : String → String → Call
deriving DecidableEq

/-- Body of a `/route` response: `distance_meters`, `duration_seconds`,
`geometry`, `start_coords`, `end_coords`, or an error object. -/
inductive RouteBody where
  | success : JSNum → JSNum → String → String → String → RouteBody
  | failure : String → RouteBody
deriving DecidableEq

/-- A `/route` response together with the outbound calls that were made. -/
structure RouteReply where
  status : Nat
  body : RouteBody
  calls : List Call
deriving DecidableEq

/-- Resolve one location input: classifier-accepted strings go through
`parseCoordinates`, everything else through `geocodePlace`; the resolved
value is the lon-then-lat string of the template literal. -/
def resolveLocation (fetchGeo : String → GeoResp) (s : String) :
    Except String String × List Call :=
  if isCoordinates s then
    match parseCoordinates s with
    | .ok c => (.ok (jsNumToString c.lon ++ "," ++ jsNumToString c.lat), [])
    | .error e => (.error e, [])
  else
    match geocodePlace fetchGeo s with
    | .ok g => (.ok (jsNumToString g.lon ++ "," ++ jsNumToString g.lat), [Call.geocode s])
    | .error e => (.error e, [Call.geocode s])

/-- The catch block of the `/route` handler sends `err.message` or, when
that is empty, `Server error`. -/
def serverError (e : String) : String :=
  if e = "" then "Server error" else e

/-- The `/route` handler from the routing fetch onward: a transport
failure is caught as 500, a non-ok status is 502, an empty route list is
404, otherwise the first route is shaped into the 200 response. -/
def routeFinish (sc ec : String) (calls : List Call) (resp : RouteResp) : RouteReply :=
  match resp with
  | .transportFail msg => ⟨500, .failure (serverError msg), calls⟩
  | .httpResp false _ => ⟨502, .failure "Routing service error", calls⟩
  | .httpResp true [] => ⟨404, .failure "No route found", calls⟩
  | .httpResp true (r :: _) =>
    ⟨200, .success r.distance r.duration r.geometry sc ec, calls⟩

/-- The `/route` handler: validate the parameters, resolve `start` then
`end`, fetch the route, shape the response; thrown errors are caught as
500. -/
def routeHandler (fetchGeo : String → GeoResp)
    (fetchRoute : String → String → RouteResp)
    (startQ endQ : Option String) : RouteReply :=
  if jsFalsyOpt startQ || jsFalsyOpt endQ then
    ⟨400, .failure "start and end required", []⟩
  else
    match resolveLocation fetchGeo (startQ.getD "") with
    | (.error e, cs) => ⟨500, .failure (serverError e), cs⟩
    | (.ok sc, cs1) =>
      match resolveLocation fetchGeo (endQ.getD "") with
      | (.error e, cs2) => ⟨500, .failure (serverError e), cs1 ++ cs2⟩
      | (.ok ec, cs2) =>
        routeFinish sc ec (cs1 ++ cs2 ++ [Call.routeFetch sc ec]) (fetchRoute sc ec)

/-- Modelled from the spec: the `/route` handler with the two independent
resolution steps executed in the other order (`end` before `start`), the
comparison point for the order-independence claim. -/
def routeHandlerSwapped (fetchGeo : String → GeoResp)
    (fetchRoute : String → String → RouteResp)
    (startQ endQ : Option String) : RouteReply :=
  if jsFalsyOpt startQ || jsFalsyOpt endQ then
    ⟨400, .failure "start and end required", []⟩
  else
    match resolveLocation fetchGeo (endQ.getD "") with
    | (.error e, cs) => ⟨500, .failure (serverError e), cs⟩
    | (.ok ec, cs2) =>
      match resolveLocation fetchGeo (startQ.getD "") with
      | (.error e, cs1) => ⟨500, .failure (serverError e), cs2 ++ cs1⟩
      | (.ok sc, cs1) =>
        routeFinish sc ec (cs2 ++ cs1 ++ [Call.routeFetch sc ec]) (fetchRoute sc ec)

/-- A persisted route document. -/
structure SavedRoute where
  name : String
  geo : String
  createdAt : Nat
deriving DecidableEq

/-- The only cross-request state of the process: the optional collection
handle, which stays `none` when no store URI is configured. -/
structure ServerState where
  routesCollection : Option (List SavedRoute)
deriving DecidableEq

/-- Body of a `/save-route` response. -/
inductive SaveReply where
  | saved : Nat → SaveReply
  | failure : String → SaveReply
deriving DecidableEq

/-- The `/save-route` handler: 400 when no collection is configured or
`geo` is falsy; otherwise insert a document. -/
def saveRouteHandler (st : ServerState) (name geo : Option String) (now : Nat) :
    (Nat × SaveReply) × ServerState :=
  match st.routesCollection with
  | none => ((400, .failure "MongoDB not configured"), st)
  | some coll =>
    if jsFalsyOpt geo then ((400, .failure "geo required"), ⟨some coll⟩)
    else
      ((200, .saved coll.length),
        ⟨some (⟨(if jsFalsyOpt name then "Unnamed" else name.getD ""), geo.getD "", now⟩ :: coll)⟩)

/-- The `/routes` handler: the empty list when no collection is configured,
otherwise the stored documents sorted newest first and capped at 50. -/
def routesHandler (st : ServerState) : Nat × List SavedRoute :=
  match st.routesCollection with
  | none => (200, [])
  | some coll =>
    (200, (coll.mergeSort (fun x y => decide (y.createdAt ≤ x.createdAt))).take 50)

/-- Run a sequence of `/save-route` requests (name, geo, timestamp) against
a starting state. -/
def applySaves (st : ServerState) :
    List (Option String × Option String × Nat) → ServerState
  | [] => st
  | r :: rs => applySaves (saveRouteHandler st r.1 r.2.1 r.2.2).2 rs

/-- Structural reading of the regex body `\d+\.?\d*`: a nonempty digit
block, an optional dot and a digit block that may be present only with the
dot. -/
def NumBodySpec (r : List Char) : Prop :=
  ∃ (dot : Bool) (ds fs : List Char),
    r = ds ++ (if dot then ['.'] else []) ++ fs ∧
    ds ≠ [] ∧ (∀ c ∈ ds, isDig c = true) ∧ (∀ c ∈ fs, isDig c = true) ∧
    (dot = false → fs = [])

/-- Structural reading of the regex token `-?\d+\.?\d*`: an optional minus,
a nonempty digit block, an optional dot and a digit block that may be
present only with the dot. -/
def NumTokSpec (l : List Char) : Prop :=
  ∃ (m dot : Bool) (ds fs : List Char),
    l = (if m then ['-'] else []) ++ ds ++ (if dot then ['.'] else []) ++ fs ∧
    ds ≠ [] ∧ (∀ c ∈ ds, isDig c = true) ∧ (∀ c ∈ fs, isDig c = true) ∧
    (dot = false → fs = [])

/-- Structural reading of the classifier pattern
`^-?\d+\.?\d*,-?\d+\.?\d*$` applied to the trimmed input. -/
def CoordPatternSpec (s : String) : Prop :=
  ∃ a b : List Char,
    jsTrimList s.data = a ++ ',' :: b ∧ NumTokSpec a ∧ NumTokSpec b

/-- A geocoding backend that always answers ok with zero results. -/
def geoEnvEmpty : String → GeoResp := fun _ => .httpResp true []

/-- A routing backend that always returns one route. -/
def routeEnvOne : String → String → RouteResp :=
  fun _ _ => .httpResp true [⟨.fin 100, .fin 60, "geomx"⟩]

/-- A routing backend whose transport always fails. -/
def routeEnvDown : String → String → RouteResp :=
  fun _ _ => .transportFail "socket hang up"

/-- A routing backend that always answers with a non-ok HTTP status. -/
def routeEnvBad : String → String → RouteResp :=
  fun _ _ => .httpResp false []

/-- A geocoding backend whose transport fails with a message that depends
on the query. -/
def geoEnvFailAB : String → GeoResp :=
  fun s => .transportFail (if s = "A" then "failA" else "failB")

/-- A classifier-accepted coordinate string whose first value, two times
ten to the 308, exceeds the IEEE double range. -/
def bigCoordStr : String := String.mk ('2' :: (List.replicate 308 '0' ++ [',', '3']))

/-! ### List and character helper lemmas -/

theorem takeWhile_of_all {α : Type} (p : α → Bool) (l : List α)
    (h : ∀ c ∈ l, p c = true) : l.takeWhile p = l := by
  induction l with
  | nil => rfl
  | cons c t ih =>
    have hc := h c (List.mem_cons_self c t)
    simp [List.takeWhile_cons, hc, ih fun x hx => h x (List.mem_cons_of_mem c hx)]

theorem dropWhile_of_all {α : Type} (p : α → Bool) (l : List α)
    (h : ∀ c ∈ l, p c = true) : l.dropWhile p = [] := by
  induction l with
  | nil => rfl
  | cons c t ih =>
    have hc := h c (List.mem_cons_self c t)
    simp [List.dropWhile_cons, hc, ih fun x hx => h x (List.mem_cons_of_mem c hx)]

theorem takeWhile_middle {α : Type} (p : α → Bool) (xs : List α) (y : α) (ys : List α)
    (hx : ∀ c ∈ xs, p c = true) (hy : p y = false) :
    (xs ++ y :: ys).takeWhile p = xs := by
  induction xs with
  | nil => simp [List.takeWhile_cons, hy]
  | cons c t ih =>
    have hc := hx c (List.mem_cons_self c t)
    simp [List.takeWhile_cons, hc, ih fun x hxm => hx x (List.mem_cons_of_mem c hxm)]

theorem dropWhile_middle {α : Type} (p : α → Bool) (xs : List α) (y : α) (ys : List α)
    (hx : ∀ c ∈ xs, p c = true) (hy : p y = false) :
    (xs ++ y :: ys).dropWhile p = y :: ys := by
  induction xs with
  | nil => simp [List.dropWhile_cons, hy]
  | cons c t ih =>
    have hc := hx c (List.mem_cons_self c t)
    simp [List.dropWhile_cons, hc, ih fun x hxm => hx x (List.mem_cons_of_mem c hxm)]

theorem dropWhile_prepend_all {α : Type} (p : α → Bool) (w l : List α)
    (hw : ∀ c ∈ w, p c = true) : (w ++ l).dropWhile p = l.dropWhile p := by
  induction w with
  | nil => rfl
  | cons c t ih =>
    have hc := hw c (List.mem_cons_self c t)
    simp [List.dropWhile_cons, hc, ih fun x hx => hw x (List.mem_cons_of_mem c hx)]

theorem dropWhile_head_false {α : Type} (p : α → Bool) (l : List α) (c : α) (t : List α)
    (h : l.dropWhile p = c :: t) : p c = false := by
  induction l with
  | nil => simp at h
  | cons x xs ih =>
    by_cases hx : p x = true
    · exact ih (by simpa [List.dropWhile_cons, hx] using h)
    · have hx' : p x = false := by simpa using hx
      rw [List.dropWhile_cons, hx'] at h
      simp at h
      rw [← h.1]
      exact hx'

theorem mem_of_takeWhile {α : Type} (p : α → Bool) (l : List α) (c : α)
    (h : c ∈ l.takeWhile p) : p c = true := by
  induction l with
  | nil => simp [List.takeWhile_nil] at h
  | cons x xs ih =>
    by_cases hx : p x = true
    · rw [List.takeWhile_cons, if_pos hx] at h
      rcases List.mem_cons.mp h with h1 | h2
      · exact h1 ▸ hx
      · exact ih h2
    · rw [List.takeWhile_cons, if_neg hx] at h
      simp at h

theorem isDig_not_ws (c : Char) (h : isDig c = true) : isJsWhitespace c = false := by
  simp only [isDig, Bool.and_eq_true, decide_eq_true_eq] at h
  rw [Bool.eq_false_iff]
  intro hw
  simp only [isJsWhitespace, Bool.or_eq_true, Bool.and_eq_true, decide_eq_true_eq,
    List.mem_cons, List.not_mem_nil, or_false] at hw
  omega

theorem isDig_ne_comma (c : Char) (h : isDig c = true) : c ≠ ',' := by
  rintro rfl
  exact absurd h (by decide)

theorem isDig_ne_minus (c : Char) (h : isDig c = true) : c ≠ '-' := by
  rintro rfl
  exact absurd h (by decide)

theorem isDig_ne_dot (c : Char) (h : isDig c = true) : c ≠ '.' := by
  rintro rfl
  exact absurd h (by decide)

theorem isDig_ne_bigI (c : Char) (h : isDig c = true) : c ≠ 'I' := by
  rintro rfl
  exact absurd h (by decide)

theorem isDig_ne_plus (c : Char) (h : isDig c = true) : c ≠ '+' := by
  rintro rfl
  exact absurd h (by decide)

theorem trim_decomp (cs : List Char) :
    ∃ w1 w2, (∀ c ∈ w1, isJsWhitespace c = true) ∧ (∀ c ∈ w2, isJsWhitespace c = true) ∧
      cs = w1 ++ jsTrimList cs ++ w2 := by
  refine ⟨cs.takeWhile isJsWhitespace,
    ((cs.dropWhile isJsWhitespace).reverse.takeWhile isJsWhitespace).reverse,
    fun c hc => mem_of_takeWhile _ _ _ hc,
    fun c hc => mem_of_takeWhile _ _ _ (List.mem_reverse.mp hc), ?_⟩
  conv_lhs => rw [← List.takeWhile_append_dropWhile (p := isJsWhitespace) (l := cs)]
  rw [List.append_assoc]
  congr 1
  unfold jsTrimList
  conv_lhs => rw [← List.reverse_reverse (cs.dropWhile isJsWhitespace)]
  conv_lhs =>
    rw [← List.takeWhile_append_dropWhile (p := isJsWhitespace)
      (l := (cs.dropWhile isJsWhitespace).reverse)]
  rw [List.reverse_append]

theorem jsTrimList_sandwich (w1 a w2 : List Char)
    (h1 : ∀ c ∈ w1, isJsWhitespace c = true) (h2 : ∀ c ∈ w2, isJsWhitespace c = true)
    (ha : ∀ c ∈ a, isJsWhitespace c = false) (hne : a ≠ []) :
    jsTrimList (w1 ++ a ++ w2) = a := by
  unfold jsTrimList
  rw [List.append_assoc, dropWhile_prepend_all _ _ _ h1]
  cases ha2 : a with
  | nil => exact absurd ha2 hne
  | cons c t =>
    have hc : isJsWhitespace c = false := ha c (ha2 ▸ List.mem_cons_self c t)
    rw [← ha2]
    have : (a ++ w2).dropWhile isJsWhitespace = a ++ w2 := by
      rw [ha2]
      simp only [List.cons_append, List.dropWhile_cons, hc]
      simp
    rw [this, List.reverse_append, dropWhile_prepend_all _ _ _
      (fun x hx => h2 x (List.mem_reverse.mp hx))]
    cases ha3 : a.reverse with
    | nil => simp at ha3; exact absurd ha3 hne
    | cons c2 t2 =>
      have hc2 : isJsWhitespace c2 = false :=
        ha c2 (List.mem_reverse.mp (ha3 ▸ List.mem_cons_self c2 t2))
      rw [List.dropWhile_cons, hc2]
      simp only [Bool.false_eq_true, if_false]
      rw [← ha3, List.reverse_reverse]

theorem splitComma_of_no_comma (u : List Char) (h : ∀ c ∈ u, c ≠ ',') :
    splitComma u = [u] := by
  induction u with
  | nil => rfl
  | cons c t ih =>
    have hc : c ≠ ',' := h c (List.mem_cons_self c t)
    rw [splitComma, if_neg hc, ih fun x hx => h x (List.mem_cons_of_mem c hx)]

theorem splitComma_middle (u v : List Char) (h : ∀ c ∈ u, c ≠ ',') :
    splitComma (u ++ ',' :: v) = u :: splitComma v := by
  induction u with
  | nil => simp [splitComma]
  | cons c t ih =>
    have hc : c ≠ ',' := h c (List.mem_cons_self c t)
    rw [List.cons_append, splitComma, if_neg hc,
      ih fun x hx => h x (List.mem_cons_of_mem c hx)]

/-! ### The classifier matches the regex -/

theorem matchNumBody_iff (r : List Char) : matchNumBody r = true ↔ NumBodySpec r := by
  have hsplit : r.takeWhile isDig ++ r.dropWhile isDig = r :=
    List.takeWhile_append_dropWhile (p := isDig) (l := r)
  constructor
  · intro h
    unfold matchNumBody at h
    rcases Bool.and_eq_true_iff.mp h with ⟨hne, hrest⟩
    have hds : (r.takeWhile isDig) ≠ [] := by simpa using hne
    cases hdrop : r.dropWhile isDig with
    | nil =>
      refine ⟨false, r.takeWhile isDig, [], ?_, hds,
        fun c hc => mem_of_takeWhile _ _ _ hc, by simp, fun _ => rfl⟩
      rw [if_neg (by simp), List.append_nil, List.append_nil]
      conv_lhs => rw [← hsplit]
      rw [hdrop, List.append_nil]
    | cons c fs =>
      rw [hdrop] at hrest
      simp only [Bool.and_eq_true, decide_eq_true_eq] at hrest
      refine ⟨true, r.takeWhile isDig, fs, ?_, hds,
        fun x hx => mem_of_takeWhile _ _ _ hx,
        fun x hx => (List.all_eq_true.mp hrest.2) x hx, fun hf => by simp at hf⟩
      rw [if_pos rfl]
      conv_lhs => rw [← hsplit]
      rw [hdrop, hrest.1]
      simp
  · rintro ⟨dot, ds, fs, hr, hds, hdig, hfdig, himp⟩
    unfold matchNumBody
    cases dot with
    | false =>
      rw [himp rfl] at hr
      have hr2 : r = ds := by simpa using hr
      rw [hr2, takeWhile_of_all _ _ hdig, dropWhile_of_all _ _ hdig]
      simp [hds]
    | true =>
      have hr2 : r = ds ++ '.' :: fs := by simpa using hr
      rw [hr2, takeWhile_middle _ _ _ _ hdig (by decide),
        dropWhile_middle _ _ _ _ hdig (by decide)]
      have hall : fs.all isDig = true := List.all_eq_true.mpr hfdig
      simp [hds, hall]

theorem matchNumTok_iff (l : List Char) : matchNumTok l = true ↔ NumTokSpec l := by
  have spec_of_body : ∀ r : List Char, NumBodySpec r →
      NumTokSpec r ∧ NumTokSpec ('-' :: r) := by
    rintro r ⟨dot, ds, fs, hr, hds, hdig, hfdig, himp⟩
    constructor
    · exact ⟨false, dot, ds, fs, by simpa using hr, hds, hdig, hfdig, himp⟩
    · exact ⟨true, dot, ds, fs, by simpa using hr, hds, hdig, hfdig, himp⟩
  have body_of_spec : ∀ l2 : List Char, NumTokSpec l2 →
      (∃ r, l2 = '-' :: r ∧ NumBodySpec r) ∨ (NumBodySpec l2 ∧ ∀ r, l2 ≠ '-' :: r) := by
    rintro l2 ⟨m, dot, ds, fs, hl, hds, hdig, hfdig, himp⟩
    cases m with
    | true =>
      refine Or.inl ⟨ds ++ (if dot then ['.'] else []) ++ fs, by simpa using hl,
        dot, ds, fs, rfl, hds, hdig, hfdig, himp⟩
    | false =>
      have hl2 : l2 = ds ++ (if dot then ['.'] else []) ++ fs := by simpa using hl
      refine Or.inr ⟨⟨dot, ds, fs, hl2, hds, hdig, hfdig, himp⟩, ?_⟩
      intro r hr
      cases hds2 : ds with
      | nil => exact hds hds2
      | cons d dt =>
        have hd : isDig d = true := hdig d (hds2 ▸ List.mem_cons_self d dt)
        have : l2 = d :: (dt ++ (if dot then ['.'] else []) ++ fs) := by
          rw [hl2, hds2]; simp
        rw [hr] at this
        exact isDig_ne_minus d hd (by injection this with h1 _; exact h1.symm)
  cases l with
  | nil =>
    constructor
    · intro h
      exact absurd h (by decide)
    · intro h
      rcases body_of_spec [] h with ⟨r, hr, _⟩ | ⟨⟨dot, ds, fs, hl, hds, _, _, _⟩, _⟩
      · exact absurd hr.symm (List.cons_ne_nil '-' r)
      · exact absurd (List.append_eq_nil.mp
          (List.append_eq_nil.mp hl.symm).1).1 hds
  | cons c r =>
    by_cases hc : c = '-'
    · subst hc
      rw [matchNumTok, if_pos rfl, matchNumBody_iff]
      constructor
      · intro h; exact (spec_of_body r h).2
      · intro h
        rcases body_of_spec _ h with ⟨r2, hr2, hb⟩ | ⟨_, hne⟩
        · rwa [(List.cons_eq_cons.mp hr2).2]
        · exact absurd rfl (hne r)
    · rw [matchNumTok, if_neg hc, matchNumBody_iff]
      constructor
      · intro h; exact (spec_of_body _ h).1
      · intro h
        rcases body_of_spec _ h with ⟨r2, hr2, _⟩ | ⟨hb, _⟩
        · exact absurd (List.cons_eq_cons.mp hr2).1 hc
        · exact hb

theorem numTok_chars (l : List Char) (h : NumTokSpec l) :
    ∀ c ∈ l, isDig c = true ∨ c = '-' ∨ c = '.' := by
  rcases h with ⟨m, dot, ds, fs, hl, _, hdig, hfdig, _⟩
  intro c hc
  rw [hl] at hc
  rcases List.mem_append.mp hc with h1 | hfs
  · rcases List.mem_append.mp h1 with h2 | hdot
    · rcases List.mem_append.mp h2 with hsign | hds2
      · cases m with
        | true => simp at hsign; exact Or.inr (Or.inl hsign)
        | false => simp at hsign
      · exact Or.inl (hdig c hds2)
    · cases dot with
      | true => simp at hdot; exact Or.inr (Or.inr hdot)
      | false => simp at hdot
  · exact Or.inl (hfdig c hfs)

theorem numTok_no_comma (l : List Char) (h : NumTokSpec l) : ∀ c ∈ l, c ≠ ',' := by
  intro c hc
  rcases numTok_chars l h c hc with hd | rfl | rfl
  · exact isDig_ne_comma c hd
  · decide
  · decide

theorem numTok_no_ws (l : List Char) (h : NumTokSpec l) :
    ∀ c ∈ l, isJsWhitespace c = false := by
  intro c hc
  rcases numTok_chars l h c hc with hd | rfl | rfl
  · exact isDig_not_ws c hd
  · decide
  · decide

theorem numTok_ne_nil (l : List Char) (h : NumTokSpec l) : l ≠ [] := by
  rcases h with ⟨m, dot, ds, fs, hl, hds, _, _, _⟩
  rintro rfl
  exact absurd (List.append_eq_nil.mp
    (List.append_eq_nil.mp (List.append_eq_nil.mp hl.symm).1).1).2 hds

theorem isCoordinatesL_iff (cs : List Char) :
    isCoordinatesL cs = true ↔
      ∃ a b : List Char, jsTrimList cs = a ++ ',' :: b ∧ NumTokSpec a ∧ NumTokSpec b := by
  constructor
  · intro h
    simp only [isCoordinatesL] at h
    cases hdrop : (jsTrimList cs).dropWhile (fun c => !(c = ',' : Bool)) with
    | nil => rw [hdrop] at h; simp at h
    | cons c b =>
      rw [hdrop] at h
      rcases Bool.and_eq_true_iff.mp h with ⟨ha, hb⟩
      have hc : c = ',' := by
        have := dropWhile_head_false _ _ _ _ hdrop
        simpa using this
      subst hc
      refine ⟨(jsTrimList cs).takeWhile (fun c => !(c = ',' : Bool)), b, ?_,
        matchNumTok_iff _ |>.mp ha, matchNumTok_iff _ |>.mp hb⟩
      conv_lhs => rw [← List.takeWhile_append_dropWhile
        (p := (fun c => !(c = ',' : Bool))) (l := jsTrimList cs)]
      rw [hdrop]
  · rintro ⟨a, b, ht, hna, hnb⟩
    have haall : ∀ c ∈ a, (fun c => !(c = ',' : Bool)) c = true := by
      intro c hc
      simpa using numTok_no_comma a hna c hc
    have hcomma : (fun c => !(c = ',' : Bool)) ',' = false := by simp
    simp only [isCoordinatesL]
    rw [ht, dropWhile_middle _ _ _ _ haall hcomma, takeWhile_middle _ _ _ _ haall hcomma]
    rw [Bool.and_eq_true_iff]
    exact ⟨(matchNumTok_iff a).mpr hna, (matchNumTok_iff b).mpr hnb⟩

/-! ### Digit strings and decimal rendering -/

theorem natOfDigits_from (a : Nat) (ds : List Char) :
    ds.foldl (fun acc c => 10 * acc + digitVal c) a = a * 10 ^ ds.length + natOfDigits ds := by
  induction ds generalizing a with
  | nil => simp [natOfDigits]
  | cons c t ih =>
    rw [List.foldl_cons, ih (10 * a + digitVal c)]
    have h2 : natOfDigits (c :: t) = digitVal c * 10 ^ t.length + natOfDigits t := by
      have h3 : natOfDigits (c :: t)
          = t.foldl (fun acc c => 10 * acc + digitVal c) (10 * 0 + digitVal c) := rfl
      rw [h3, ih (10 * 0 + digitVal c)]
      ring_nf
    rw [h2, List.length_cons, pow_succ]
    ring

theorem natOfDigits_append (xs ys : List Char) :
    natOfDigits (xs ++ ys) = natOfDigits xs * 10 ^ ys.length + natOfDigits ys := by
  unfold natOfDigits
  rw [List.foldl_append, natOfDigits_from]
  rfl

theorem natOfDigits_replicate_zero (j : Nat) :
    natOfDigits (List.replicate j '0') = 0 := by
  induction j with
  | zero => rfl
  | succ k ih =>
    rw [List.replicate_succ, natOfDigits, List.foldl_cons]
    have : (10 * 0 + digitVal '0') = 0 := by decide
    rw [this]
    exact ih

theorem digitChar_facts : ∀ r < 10, (Char.ofNat (48 + r)).toNat = 48 + r ∧
    isDig (Char.ofNat (48 + r)) = true ∧ digitVal (Char.ofNat (48 + r)) = r := by
  decide

theorem digitsAux_spec : ∀ fuel n, n < 10 ^ fuel →
    (∀ c ∈ digitsAux fuel n, isDig c = true) ∧
    (0 < fuel → digitsAux fuel n ≠ []) ∧
    natOfDigits (digitsAux fuel n).reverse = n := by
  intro fuel
  induction fuel with
  | zero =>
    intro n hn
    have : n = 0 := by simpa using hn
    subst this
    exact ⟨by simp [digitsAux], fun h => absurd h (by omega), by simp [digitsAux, natOfDigits]⟩
  | succ f ih =>
    intro n hn
    by_cases h10 : n < 10
    · rw [digitsAux, if_pos h10]
      refine ⟨?_, fun _ => by simp, ?_⟩
      · intro c hc
        rw [List.mem_singleton] at hc
        rw [hc]
        exact (digitChar_facts n h10).2.1
      · simp [natOfDigits]
        exact (digitChar_facts n h10).2.2
    · rw [digitsAux, if_neg h10]
      have hdiv : n / 10 < 10 ^ f := by
        rw [Nat.div_lt_iff_lt_mul (by norm_num)]
        calc n < 10 ^ (f + 1) := hn
        _ = 10 ^ f * 10 := by rw [pow_succ]
      obtain ⟨ihmem, _, ihval⟩ := ih (n / 10) hdiv
      refine ⟨?_, fun _ => by simp, ?_⟩
      · intro c hc
        rcases List.mem_cons.mp hc with rfl | hc2
        · exact (digitChar_facts (n % 10) (Nat.mod_lt n (by norm_num))).2.1
        · exact ihmem c hc2
      · rw [List.reverse_cons, natOfDigits_append, ihval]
        have : natOfDigits [Char.ofNat (48 + n % 10)] = n % 10 := by
          rw [natOfDigits, List.foldl_cons, List.foldl_nil]
          rw [Nat.mul_zero, Nat.zero_add]
          exact (digitChar_facts (n % 10) (Nat.mod_lt n (by norm_num))).2.2
        rw [this, List.length_singleton, pow_one]
        omega

theorem natToDigitChars_spec (n : Nat) :
    (∀ c ∈ natToDigitChars n, isDig c = true) ∧ natToDigitChars n ≠ [] ∧
    natOfDigits (natToDigitChars n) = n := by
  have hb : n < 10 ^ (n + 1) :=
    lt_of_lt_of_le (Nat.lt_pow_self (by norm_num) n)
      (Nat.pow_le_pow_right (by norm_num) (Nat.le_succ n))
  obtain ⟨hmem, hne, hval⟩ := digitsAux_spec (n + 1) n hb
  refine ⟨?_, ?_, hval⟩
  · intro c hc
    exact hmem c (List.mem_reverse.mp hc)
  · intro h
    rw [natToDigitChars, List.reverse_eq_nil_iff] at h
    exact hne (by omega) h

theorem pmultAux_spec : ∀ fuel p d, 2 ≤ p → 0 < d → d ≤ fuel →
    ∃ r, 0 < r ∧ d = p ^ pmultAux fuel p d * r ∧ ¬ p ∣ r := by
  intro fuel
  induction fuel with
  | zero =>
    intro p d _ hd hle
    omega
  | succ f ih =>
    intro p d hp hd hle
    by_cases hcond : 2 ≤ p ∧ 0 < d ∧ d % p = 0
    · rw [pmultAux, if_pos hcond]
      have hdvd : p ∣ d := Nat.dvd_of_mod_eq_zero hcond.2.2
      have hdp : 0 < d / p := Nat.div_pos (Nat.le_of_dvd hd hdvd) (by omega)
      have hlt : d / p < d := Nat.div_lt_self hd (by omega)
      obtain ⟨r, hr, he, hnd⟩ := ih p (d / p) hp hdp (by omega)
      refine ⟨r, hr, ?_, hnd⟩
      calc d = p * (d / p) := (Nat.mul_div_cancel' hdvd).symm
      _ = p * (p ^ pmultAux f p (d / p) * r) := by rw [← he]
      _ = p ^ (pmultAux f p (d / p) + 1) * r := by rw [pow_succ]; ring
    · rw [pmultAux, if_neg hcond]
      refine ⟨d, hd, by simp, ?_⟩
      intro hdvd
      obtain ⟨t, rfl⟩ := hdvd
      exact hcond ⟨hp, hd, Nat.mul_mod_right p t⟩

theorem pmult_spec (p d : Nat) (hp : 2 ≤ p) (hd : 0 < d) :
    ∃ r, 0 < r ∧ d = p ^ pmult p d * r ∧ ¬ p ∣ r :=
  pmultAux_spec d p d hp hd le_rfl

theorem ten_smooth_decomp (d K : Nat) (hd : 0 < d) (hdvd : d ∣ 10 ^ K) :
    d = 2 ^ pmult 2 d * 5 ^ pmult 5 d := by
  obtain ⟨r, hr, hde, hnd2⟩ := pmult_spec 2 d (by norm_num) hd
  have hrd : r ∣ d := Dvd.intro_left _ hde.symm
  have hr10 : r ∣ 2 ^ K * 5 ^ K := by
    have : (10:ℕ) ^ K = 2 ^ K * 5 ^ K := by
      rw [show (10:ℕ) = 2 * 5 from rfl, mul_pow]
    exact this ▸ hrd.trans hdvd
  have hcop : Nat.Coprime r (2 ^ K) :=
    Nat.Coprime.pow_right K (((Nat.prime_two).coprime_iff_not_dvd.mpr hnd2).symm)
  have hr5 : r ∣ 5 ^ K := hcop.dvd_of_dvd_mul_left hr10
  obtain ⟨c, hcK, hrc⟩ := (Nat.dvd_prime_pow Nat.prime_five).mp hr5
  obtain ⟨s, hs, hde5, hnd5⟩ := pmult_spec 5 d (by norm_num) hd
  have h1 : 2 ^ pmult 2 d * 5 ^ c = 5 ^ pmult 5 d * s := by
    rw [← hrc, ← hde]
    exact hde5
  rcases Nat.lt_trichotomy (pmult 5 d) c with hlt | heq | hgt
  · exfalso
    have h2 : 5 ^ pmult 5 d * (2 ^ pmult 2 d * 5 ^ (c - pmult 5 d)) = 5 ^ pmult 5 d * s := by
      rw [← h1]
      have hc2 : pmult 5 d + (c - pmult 5 d) = c := by omega
      calc 5 ^ pmult 5 d * (2 ^ pmult 2 d * 5 ^ (c - pmult 5 d))
          = 2 ^ pmult 2 d * (5 ^ pmult 5 d * 5 ^ (c - pmult 5 d)) := by ring
      _ = 2 ^ pmult 2 d * 5 ^ (pmult 5 d + (c - pmult 5 d)) := by rw [pow_add]
      _ = 2 ^ pmult 2 d * 5 ^ c := by rw [hc2]
    have hseq : s = 2 ^ pmult 2 d * 5 ^ (c - pmult 5 d) :=
      (Nat.eq_of_mul_eq_mul_left
        (show 0 < 5 ^ pmult 5 d from pow_pos (by norm_num) _) h2).symm
    apply hnd5
    rw [hseq]
    exact Dvd.dvd.mul_left (dvd_pow_self 5 (by omega)) _
  · conv_lhs => rw [hde, hrc]
    rw [heq]
  · exfalso
    have h2 : 5 ^ c * (2 ^ pmult 2 d) = 5 ^ c * (5 ^ (pmult 5 d - c) * s) := by
      rw [← mul_assoc, ← pow_add]
      have : c + (pmult 5 d - c) = pmult 5 d := by omega
      rw [this, ← h1]
      ring
    have h3 : 2 ^ pmult 2 d = 5 ^ (pmult 5 d - c) * s :=
      Nat.eq_of_mul_eq_mul_left (show 0 < 5 ^ c from pow_pos (by norm_num) _) h2
    have h5 : (5:ℕ) ∣ 2 ^ pmult 2 d := by
      rw [h3]
      exact Dvd.dvd.mul_right (dvd_pow_self 5 (by omega)) _
    have := Nat.Prime.dvd_of_dvd_pow Nat.prime_five h5
    norm_num at this

theorem applyExp_zero (q : ℚ) : applyExp q 0 = q := by
  rw [applyExp, if_pos le_rfl]
  simp

theorem parseUnsigned_digits (l : List Char) (hne : l ≠ [])
    (hdig : ∀ c ∈ l, isDig c = true) :
    parseUnsigned l = some ((natOfDigits l : ℚ)) := by
  have ht := takeWhile_of_all isDig l hdig
  have hd := dropWhile_of_all isDig l hdig
  have hkey : l.isEmpty = false := by simp [List.isEmpty_iff, hne]
  simp [parseUnsigned, ht, hd, hkey, applyExp_zero]

theorem parseUnsigned_point (D1 D2 : List Char) (hne : D1 ≠ [])
    (h1 : ∀ c ∈ D1, isDig c = true) (h2 : ∀ c ∈ D2, isDig c = true) :
    parseUnsigned (D1 ++ '.' :: D2) =
      some ((natOfDigits D1 : ℚ) + (natOfDigits D2 : ℚ) / 10 ^ D2.length) := by
  have ht := takeWhile_middle isDig D1 '.' D2 h1 (by decide)
  have hd := dropWhile_middle isDig D1 '.' D2 h1 (by decide)
  have ht2 := takeWhile_of_all isDig D2 h2
  have hd2 := dropWhile_of_all isDig D2 h2
  have hkey : D1.isEmpty = false := by simp [List.isEmpty_iff, hne]
  simp [parseUnsigned, ht, hd, ht2, hd2, hkey, applyExp_zero, expOf]

theorem renderWithPoint_spec (m k : Nat) (hk : 0 < k) :
    ∃ D1 D2, renderWithPoint m k = D1 ++ '.' :: D2 ∧ D1 ≠ [] ∧
      (∀ c ∈ D1, isDig c = true) ∧ (∀ c ∈ D2, isDig c = true) ∧
      D2.length = k ∧ natOfDigits D1 * 10 ^ k + natOfDigits D2 = m := by
  obtain ⟨dmem, dne, dval⟩ := natToDigitChars_spec m
  refine ⟨(List.replicate (k + 1 - (natToDigitChars m).length) '0' ++ natToDigitChars m).take
      ((List.replicate (k + 1 - (natToDigitChars m).length) '0' ++ natToDigitChars m).length - k),
    (List.replicate (k + 1 - (natToDigitChars m).length) '0' ++ natToDigitChars m).drop
      ((List.replicate (k + 1 - (natToDigitChars m).length) '0' ++ natToDigitChars m).length - k),
    rfl, ?_, ?_, ?_, ?_, ?_⟩
  all_goals {
    have hpadmem : ∀ c ∈ List.replicate (k + 1 - (natToDigitChars m).length) '0'
        ++ natToDigitChars m, isDig c = true := by
      intro c hc
      rcases List.mem_append.mp hc with h1 | h2
      · rw [List.eq_of_mem_replicate h1]; decide
      · exact dmem c h2
    have hlen : k + 1 ≤ (List.replicate (k + 1 - (natToDigitChars m).length) '0'
        ++ natToDigitChars m).length := by
      rw [List.length_append, List.length_replicate]
      have := List.length_pos.mpr dne
      omega
    first
    | -- D1 nonempty
      (intro h
       have h2 := congrArg List.length h
       rw [List.length_take] at h2
       simp at h2
       omega)
    | -- memberships
      (intro c hc
       first
       | exact hpadmem c (List.take_subset _ _ hc)
       | exact hpadmem c (List.drop_subset _ _ hc))
    | -- length of D2
      (rw [List.length_drop]; omega)
    | -- value equation
      (have hpadval : natOfDigits (List.replicate (k + 1 - (natToDigitChars m).length) '0'
          ++ natToDigitChars m) = m := by
        rw [natOfDigits_append, natOfDigits_replicate_zero, dval]
        simp
       have hsplit := List.take_append_drop
         ((List.replicate (k + 1 - (natToDigitChars m).length) '0'
           ++ natToDigitChars m).length - k)
         (List.replicate (k + 1 - (natToDigitChars m).length) '0' ++ natToDigitChars m)
       have hD2len : ((List.replicate (k + 1 - (natToDigitChars m).length) '0'
           ++ natToDigitChars m).drop ((List.replicate (k + 1 - (natToDigitChars m).length) '0'
           ++ natToDigitChars m).length - k)).length = k := by
         rw [List.length_drop]; omega
       calc natOfDigits ((List.replicate (k + 1 - (natToDigitChars m).length) '0'
             ++ natToDigitChars m).take ((List.replicate (k + 1 -
             (natToDigitChars m).length) '0' ++ natToDigitChars m).length - k)) * 10 ^ k
             + natOfDigits ((List.replicate (k + 1 - (natToDigitChars m).length) '0'
             ++ natToDigitChars m).drop ((List.replicate (k + 1 -
             (natToDigitChars m).length) '0' ++ natToDigitChars m).length - k))
           = natOfDigits (List.replicate (k + 1 - (natToDigitChars m).length) '0'
             ++ natToDigitChars m) := by
             conv_rhs => rw [← hsplit]
             rw [natOfDigits_append, hD2len]
       _ = m := hpadval)
  }

theorem renderDigits_parse (n d : Nat) (hn : 0 < n) (hd : 0 < d)
    (hsm : d = 2 ^ pmult 2 d * 5 ^ pmult 5 d) :
    parseUnsigned (renderDigits n d) = some ((n : ℚ) / (d : ℚ)) ∧
    (∀ c ∈ renderDigits n d, isDig c = true ∨ c = '.') ∧
    (∃ c t, renderDigits n d = c :: t ∧ isDig c = true) := by
  by_cases hk : max (pmult 2 d) (pmult 5 d) = 0
  · have hd1 : d = 1 := by
      rw [hsm, Nat.max_eq_zero_iff.mp hk |>.1, Nat.max_eq_zero_iff.mp hk |>.2]
      norm_num
    obtain ⟨hmem, hne, hval⟩ := natToDigitChars_spec n
    have hrender : renderDigits n d = natToDigitChars n := by
      simp only [renderDigits]
      rw [if_pos hk]
    rw [hrender, hd1]
    refine ⟨?_, fun c hc => Or.inl (hmem c hc), ?_⟩
    · rw [parseUnsigned_digits _ hne hmem, hval]
      norm_num
    · cases hcase : natToDigitChars n with
      | nil => exact absurd hcase hne
      | cons c t => exact ⟨c, t, rfl, hmem c (hcase ▸ List.mem_cons_self c t)⟩
  · have hkpos : 0 < max (pmult 2 d) (pmult 5 d) := Nat.pos_of_ne_zero hk
    have hrender : renderDigits n d = renderWithPoint
        (n * 2 ^ (max (pmult 2 d) (pmult 5 d) - pmult 2 d)
          * 5 ^ (max (pmult 2 d) (pmult 5 d) - pmult 5 d))
        (max (pmult 2 d) (pmult 5 d)) := by
      simp only [renderDigits]
      rw [if_neg hk]
    obtain ⟨D1, D2, heq, hne, h1, h2, hlen, hval⟩ := renderWithPoint_spec
      (n * 2 ^ (max (pmult 2 d) (pmult 5 d) - pmult 2 d)
        * 5 ^ (max (pmult 2 d) (pmult 5 d) - pmult 5 d))
      (max (pmult 2 d) (pmult 5 d)) hkpos
    rw [hrender, heq]
    have hmd : (natOfDigits D1 * 10 ^ max (pmult 2 d) (pmult 5 d) + natOfDigits D2) * d
        = n * 10 ^ max (pmult 2 d) (pmult 5 d) := by
      rw [hval]
      revert hsm
      generalize pmult 2 d = a
      generalize pmult 5 d = b
      intro hsm
      rw [hsm]
      calc n * 2 ^ (max a b - a) * 5 ^ (max a b - b) * (2 ^ a * 5 ^ b)
          = n * ((2 ^ (max a b - a) * 2 ^ a) * (5 ^ (max a b - b) * 5 ^ b)) := by ring
      _ = n * (2 ^ max a b * 5 ^ max a b) := by
          rw [← pow_add, ← pow_add,
            show max a b - a + a = max a b by omega,
            show max a b - b + b = max a b by omega]
      _ = n * 10 ^ max a b := by
          rw [show (10:ℕ) = 2 * 5 from rfl, mul_pow]
    refine ⟨?_, ?_, ?_⟩
    · rw [parseUnsigned_point D1 D2 hne h1 h2, hlen]
      congr 1
      have hpow : ((10:ℚ) ^ max (pmult 2 d) (pmult 5 d)) ≠ 0 := by positivity
      have hdq : ((d:ℚ)) ≠ 0 := Nat.cast_ne_zero.mpr (by omega)
      have hstep : ((natOfDigits D1 : ℚ))
          + (natOfDigits D2 : ℚ) / 10 ^ max (pmult 2 d) (pmult 5 d)
          = ((natOfDigits D1 * 10 ^ max (pmult 2 d) (pmult 5 d) + natOfDigits D2 : ℕ) : ℚ)
            / 10 ^ max (pmult 2 d) (pmult 5 d) := by
        push_cast
        rw [add_div, mul_div_cancel_right₀ _ hpow]
      rw [hstep, div_eq_div_iff hpow hdq]
      exact_mod_cast hmd
    · intro c hc
      rcases List.mem_append.mp hc with hc1 | hc2
      · exact Or.inl (h1 c hc1)
      · rcases List.mem_cons.mp hc2 with rfl | hc3
        · exact Or.inr rfl
        · exact Or.inl (h2 c hc3)
    · cases D1 with
      | nil => exact absurd rfl hne
      | cons c t =>
        exact ⟨c, t ++ '.' :: D2, by simp, h1 c (List.mem_cons_self c t)⟩

theorem mkNum_fin (neg : Bool) (q x : ℚ) (h : mkNum neg q = .fin x) :
    x = (if neg then -q else q) ∧ ¬ ((overflowBound : ℚ) ≤ q) := by
  rw [mkNum] at h
  by_cases hb : (overflowBound : ℚ) ≤ q
  · rw [if_pos hb] at h
    exact absurd h (by simp)
  · rw [if_neg hb] at h
    injection h with h2
    exact ⟨h2.symm, hb⟩

theorem parseSigned_fin (neg : Bool) (r : List Char) (x : ℚ)
    (h : parseSigned neg r = .fin x) :
    ∃ q, parseUnsigned r = some q ∧ mkNum neg q = .fin x := by
  rw [parseSigned] at h
  by_cases hinf : r.take 8 = infinityChars
  · rw [if_pos hinf] at h
    exact absurd h (by simp)
  · rw [if_neg hinf] at h
    cases hu : parseUnsigned r with
    | none => rw [hu] at h; exact absurd h (by simp)
    | some q => rw [hu] at h; exact ⟨q, rfl, h⟩

theorem applyExp_shape (m k : ℕ) (e : Int) :
    ∃ (m2 k2 : ℕ), applyExp ((m : ℚ) / 10 ^ k) e = (m2 : ℚ) / 10 ^ k2 := by
  rw [applyExp]
  by_cases he : 0 ≤ e
  · rw [if_pos he]
    refine ⟨m * 10 ^ e.toNat, k, ?_⟩
    push_cast
    have hpow : ((10:ℚ) ^ k) ≠ 0 := by positivity
    field_simp
    try ring
  · rw [if_neg he]
    refine ⟨m, k + (-e).toNat, ?_⟩
    rw [div_div, ← pow_add]

theorem parseUnsigned_shape (l : List Char) (q : ℚ) (h : parseUnsigned l = some q) :
    ∃ (m k : ℕ), q = (m : ℚ) / 10 ^ k := by
  rw [parseUnsigned] at h
  cases hdrop : l.dropWhile isDig with
  | nil =>
    rw [hdrop] at h
    replace h : (if (l.takeWhile isDig).isEmpty = true then none
        else some (applyExp ((natOfDigits (l.takeWhile isDig)) : ℚ) 0)) = some q := h
    by_cases hemp : (l.takeWhile isDig).isEmpty
    · rw [if_pos hemp] at h; exact absurd h (by simp)
    · rw [if_neg hemp] at h
      injection h with h2
      obtain ⟨m2, k2, hs⟩ := applyExp_shape (natOfDigits (l.takeWhile isDig)) 0 0
      refine ⟨m2, k2, ?_⟩
      rw [← h2]
      simpa using hs
  | cons c r2 =>
    rw [hdrop] at h
    replace h : (if c = '.' then
        (if ((l.takeWhile isDig).isEmpty && (r2.takeWhile isDig).isEmpty) = true then none
         else some (applyExp ((natOfDigits (l.takeWhile isDig) : ℚ)
           + (natOfDigits (r2.takeWhile isDig) : ℚ) / 10 ^ (r2.takeWhile isDig).length)
           (expOf (r2.dropWhile isDig))))
        else if (l.takeWhile isDig).isEmpty = true then none
        else some (applyExp ((natOfDigits (l.takeWhile isDig)) : ℚ) (expOf (c :: r2))))
        = some q := h
    by_cases hc : c = '.'
    · rw [if_pos hc] at h
      by_cases hemp : ((l.takeWhile isDig).isEmpty && (r2.takeWhile isDig).isEmpty) = true
      · rw [if_pos hemp] at h; exact absurd h (by simp)
      · rw [if_neg hemp] at h
        injection h with h2
        have hbase : (natOfDigits (l.takeWhile isDig) : ℚ)
            + (natOfDigits (r2.takeWhile isDig) : ℚ) / 10 ^ (r2.takeWhile isDig).length
            = ((natOfDigits (l.takeWhile isDig) * 10 ^ (r2.takeWhile isDig).length
              + natOfDigits (r2.takeWhile isDig) : ℕ) : ℚ)
              / 10 ^ (r2.takeWhile isDig).length := by
          push_cast
          rw [add_div, mul_div_cancel_right₀ _
            (by positivity : ((10:ℚ) ^ (r2.takeWhile isDig).length) ≠ 0)]
        rw [hbase] at h2
        obtain ⟨m2, k2, hs⟩ := applyExp_shape _ _ (expOf (r2.dropWhile isDig))
        exact ⟨m2, k2, by rw [← h2, hs]⟩
    · rw [if_neg hc] at h
      by_cases hemp : (l.takeWhile isDig).isEmpty
      · rw [if_pos hemp] at h; exact absurd h (by simp)
      · rw [if_neg hemp] at h
        injection h with h2
        obtain ⟨m2, k2, hs⟩ := applyExp_shape (natOfDigits (l.takeWhile isDig)) 0
          (expOf (c :: r2))
        refine ⟨m2, k2, ?_⟩
        rw [← h2, ← hs]
        simp

theorem parseUnsigned_nonneg (l : List Char) (q : ℚ) (h : parseUnsigned l = some q) :
    0 ≤ q := by
  obtain ⟨m, k, hs⟩ := parseUnsigned_shape l q h
  rw [hs]
  positivity

theorem parseFloatL_fin (l : List Char) (x : ℚ) (h : parseFloatL l = .fin x) :
    (∃ (m : ℤ) (k : ℕ), x = (m : ℚ) / 10 ^ k) ∧ |x| < (overflowBound : ℚ) := by
  have main : ∀ (neg : Bool) (r : List Char), parseSigned neg r = .fin x →
      (∃ (m : ℤ) (k : ℕ), x = (m : ℚ) / 10 ^ k) ∧ |x| < (overflowBound : ℚ) := by
    intro neg r hps
    obtain ⟨q, hu, hmk⟩ := parseSigned_fin neg r x hps
    obtain ⟨hx, hnb⟩ := mkNum_fin neg q x hmk
    obtain ⟨m, k, hs⟩ := parseUnsigned_shape r q hu
    have hq0 : 0 ≤ q := parseUnsigned_nonneg r q hu
    have habs : |x| = q := by
      cases neg with
      | true => rw [hx]; simp [abs_of_nonneg hq0]
      | false => rw [hx]; simp [abs_of_nonneg hq0]
    constructor
    · cases neg with
      | true =>
        refine ⟨-(m : ℤ), k, ?_⟩
        rw [hx, hs]
        push_cast
        simp [neg_div]
      | false => exact ⟨(m : ℤ), k, by rw [hx, hs]; push_cast; simp⟩
    · rw [habs]
      exact lt_of_not_le hnb
  rw [parseFloatL] at h
  cases hdrop : l.dropWhile isJsWhitespace with
  | nil =>
    rw [hdrop] at h
    exact main false [] h
  | cons c r =>
    rw [hdrop] at h
    replace h : (if c = '-' then parseSigned true r
        else if c = '+' then parseSigned false r
        else parseSigned false (c :: r)) = JSNum.fin x := h
    by_cases hm : c = '-'
    · rw [if_pos hm] at h; exact main true r h
    · rw [if_neg hm] at h
      by_cases hp : c = '+'
      · rw [if_pos hp] at h; exact main false r h
      · rw [if_neg hp] at h; exact main false (c :: r) h

theorem jsNum_roundTrip (q : ℚ) (hsm : ∃ K, (q.den : ℕ) ∣ 10 ^ K)
    (hb : |q| < (overflowBound : ℚ)) :
    parseFloatL (jsNumToString (.fin q)).data = .fin q ∧
    ∀ c ∈ (jsNumToString (.fin q)).data, isDig c = true ∨ c = '.' ∨ c = '-' := by
  by_cases hq0 : q = 0
  · subst hq0
    exact ⟨by decide, by decide⟩
  · obtain ⟨K, hK⟩ := hsm
    have hsm2 : q.den = 2 ^ pmult 2 q.den * 5 ^ pmult 5 q.den :=
      ten_smooth_decomp q.den K q.den_pos hK
    have hn : 0 < q.num.natAbs := Int.natAbs_pos.mpr (Rat.num_ne_zero.mpr hq0)
    obtain ⟨hparse, hchars, c, t, hct, hcdig⟩ :=
      renderDigits_parse q.num.natAbs q.den hn q.den_pos hsm2
    have hinf : (c :: t).take 8 ≠ infinityChars := by
      intro hcontr
      have h1 : c :: t.take 7 = infinityChars := hcontr
      injection h1 with h2 _
      exact isDig_ne_bigI c hcdig h2
    have hdropct : (c :: t).dropWhile isJsWhitespace = c :: t := by
      rw [List.dropWhile_cons, isDig_not_ws c hcdig]
      simp
    have hsigned : ∀ ng : Bool, parseSigned ng (c :: t)
        = mkNum ng ((q.num.natAbs : ℚ) / (q.den : ℚ)) := by
      intro ng
      rw [parseSigned, if_neg hinf, ← hct, hparse]
    by_cases hqpos : 0 < q
    · have hnum : ((q.num.natAbs : ℚ)) = ((q.num : ℚ)) := by
        rw [Nat.cast_natAbs]
        exact_mod_cast abs_of_nonneg (Rat.num_pos.mpr hqpos).le
      have hvq : ((q.num.natAbs : ℚ)) / ((q.den : ℚ)) = q := by
        rw [hnum]
        exact Rat.num_div_den q
      have hrender : (jsNumToString (.fin q)).data = renderDigits q.num.natAbs q.den := by
        simp only [jsNumToString]
        rw [if_neg hq0, if_neg (not_lt.mpr hqpos.le)]
        rfl
      rw [hrender]
      constructor
      · rw [hct]
        have hstep : parseFloatL (c :: t) = parseSigned false (c :: t) := by
          rw [parseFloatL, hdropct]
          show (if c = '-' then parseSigned true t
              else if c = '+' then parseSigned false t
              else parseSigned false (c :: t)) = parseSigned false (c :: t)
          rw [if_neg (isDig_ne_minus c hcdig), if_neg (isDig_ne_plus c hcdig)]
        rw [hstep, hsigned false, mkNum]
        have hbound : ¬ ((overflowBound : ℚ) ≤ (q.num.natAbs : ℚ) / (q.den : ℚ)) := by
          rw [hvq]
          rw [abs_of_pos hqpos] at hb
          exact not_le.mpr hb
        rw [if_neg hbound]
        rw [show (if false then -((q.num.natAbs : ℚ) / (q.den : ℚ))
          else ((q.num.natAbs : ℚ) / (q.den : ℚ))) = ((q.num.natAbs : ℚ) / (q.den : ℚ))
          from rfl, hvq]
      · intro c2 hc2
        rcases hchars c2 hc2 with hd2 | rfl
        · exact Or.inl hd2
        · exact Or.inr (Or.inl rfl)
    · have hqneg : q < 0 := lt_of_le_of_ne (not_lt.mp hqpos) hq0
      have hnum : ((q.num.natAbs : ℚ)) = -((q.num : ℚ)) := by
        rw [Nat.cast_natAbs]
        exact_mod_cast abs_of_nonpos (Rat.num_nonpos.mpr hqneg.le)
      have hvq : ((q.num.natAbs : ℚ)) / ((q.den : ℚ)) = -q := by
        rw [hnum, neg_div, Rat.num_div_den]
      have hrender : (jsNumToString (.fin q)).data = '-' :: renderDigits q.num.natAbs q.den := by
        simp only [jsNumToString]
        rw [if_neg hq0, if_pos hqneg]
        rfl
      rw [hrender]
      constructor
      · rw [hct]
        have hstep : parseFloatL ('-' :: c :: t) = parseSigned true (c :: t) := by
          rw [parseFloatL]
          have hdrop2 : ('-' :: c :: t).dropWhile isJsWhitespace = '-' :: c :: t := by
            rw [List.dropWhile_cons, show isJsWhitespace '-' = false from by decide]
            simp
          rw [hdrop2]
          show (if '-' = '-' then parseSigned true (c :: t)
              else if '-' = '+' then parseSigned false (c :: t)
              else parseSigned false ('-' :: c :: t)) = parseSigned true (c :: t)
          rw [if_pos rfl]
        rw [hstep, hsigned true, mkNum]
        have hbound : ¬ ((overflowBound : ℚ) ≤ (q.num.natAbs : ℚ) / (q.den : ℚ)) := by
          rw [hvq]
          rw [abs_of_neg hqneg] at hb
          exact not_le.mpr hb
        rw [if_neg hbound]
        rw [show (if true then -((q.num.natAbs : ℚ) / (q.den : ℚ))
          else ((q.num.natAbs : ℚ) / (q.den : ℚ))) = -((q.num.natAbs : ℚ) / (q.den : ℚ))
          from rfl, hvq, neg_neg]
      · intro c2 hc2
        rcases List.mem_cons.mp hc2 with rfl | hc3
        · exact Or.inr (Or.inr rfl)
        · rcases hchars c2 hc3 with hd2 | rfl
          · exact Or.inl hd2
          · exact Or.inr (Or.inl rfl)

theorem mkNum_ne_nan (ng : Bool) (v : ℚ) : mkNum ng v ≠ .nan := by
  rw [mkNum]
  by_cases hb : (overflowBound : ℚ) ≤ v
  · rw [if_pos hb]; simp
  · rw [if_neg hb]; simp

theorem numBody_head (r : List Char) (h : NumBodySpec r) :
    ∃ c t, r = c :: t ∧ isDig c = true := by
  rcases h with ⟨dot, ds, fs, hr, hds, hdig, _, _⟩
  cases hds2 : ds with
  | nil => exact absurd hds2 hds
  | cons c t =>
    refine ⟨c, t ++ (if dot then ['.'] else []) ++ fs, ?_, hdig c (hds2 ▸ List.mem_cons_self c t)⟩
    rw [hr, hds2]
    simp

theorem numBody_parseUnsigned (r : List Char) (h : NumBodySpec r) :
    ∃ v, parseUnsigned r = some v := by
  rcases h with ⟨dot, ds, fs, hr, hds, hdig, hfdig, himp⟩
  cases dot with
  | false =>
    rw [himp rfl] at hr
    have hr2 : r = ds := by simpa using hr
    exact ⟨_, hr2 ▸ parseUnsigned_digits ds hds hdig⟩
  | true =>
    have hr2 : r = ds ++ '.' :: fs := by simpa using hr
    exact ⟨_, hr2 ▸ parseUnsigned_point ds fs hds hdig hfdig⟩

theorem numTok_body_cases (a : List Char) (h : NumTokSpec a) :
    (∃ r, a = '-' :: r ∧ NumBodySpec r) ∨ NumBodySpec a := by
  have hm := (matchNumTok_iff a).mpr h
  cases a with
  | nil => exact absurd hm (by decide)
  | cons c r =>
    by_cases hc : c = '-'
    · subst hc
      rw [matchNumTok, if_pos rfl] at hm
      exact Or.inl ⟨r, rfl, (matchNumBody_iff r).mp hm⟩
    · rw [matchNumTok, if_neg hc] at hm
      exact Or.inr ((matchNumBody_iff _).mp hm)

theorem numTok_parseFloat (a : List Char) (h : NumTokSpec a) :
    ∃ ng v, parseFloatL a = mkNum ng v := by
  rcases numTok_body_cases a h with ⟨r, rfl, hb⟩ | hb
  · obtain ⟨c, t, rfl, hcd⟩ := numBody_head r hb
    obtain ⟨v, hv⟩ := numBody_parseUnsigned _ hb
    refine ⟨true, v, ?_⟩
    rw [parseFloatL]
    have hdrop : ('-' :: c :: t).dropWhile isJsWhitespace = '-' :: c :: t := by
      rw [List.dropWhile_cons, show isJsWhitespace '-' = false from by decide]
      simp
    rw [hdrop]
    show (if '-' = '-' then parseSigned true (c :: t)
        else if '-' = '+' then parseSigned false (c :: t)
        else parseSigned false ('-' :: c :: t)) = mkNum true v
    rw [if_pos rfl, parseSigned]
    have hinf : (c :: t).take 8 ≠ infinityChars := by
      intro hcontr
      have h1 : c :: t.take 7 = infinityChars := hcontr
      injection h1 with h2 _
      exact isDig_ne_bigI c hcd h2
    rw [if_neg hinf, hv]
  · obtain ⟨c, t, rfl, hcd⟩ := numBody_head a hb
    obtain ⟨v, hv⟩ := numBody_parseUnsigned _ hb
    refine ⟨false, v, ?_⟩
    rw [parseFloatL]
    have hdrop : (c :: t).dropWhile isJsWhitespace = c :: t := by
      rw [List.dropWhile_cons, isDig_not_ws c hcd]
      simp
    rw [hdrop]
    show (if c = '-' then parseSigned true t
        else if c = '+' then parseSigned false t
        else parseSigned false (c :: t)) = mkNum false v
    rw [if_neg (isDig_ne_minus c hcd), if_neg (isDig_ne_plus c hcd), parseSigned]
    have hinf : (c :: t).take 8 ≠ infinityChars := by
      intro hcontr
      have h1 : c :: t.take 7 = infinityChars := hcontr
      injection h1 with h2 _
      exact isDig_ne_bigI c hcd h2
    rw [if_neg hinf, hv]

theorem ws_ne_comma (c : Char) (h : isJsWhitespace c = true) : c ≠ ',' := by
  rintro rfl
  exact absurd h (by decide)

theorem isCoordinates_split (s : String) (h : isCoordinates s = true) :
    ∃ p1 p2 a b, splitComma s.data = [p1, p2] ∧
      jsTrimList p1 = a ∧ jsTrimList p2 = b ∧ NumTokSpec a ∧ NumTokSpec b := by
  obtain ⟨a, b, ht, hna, hnb⟩ := (isCoordinatesL_iff s.data).mp h
  obtain ⟨w1, w2, hw1, hw2, hdecomp⟩ := trim_decomp s.data
  rw [ht] at hdecomp
  have hsplit2 : s.data = (w1 ++ a) ++ ',' :: (b ++ w2) := by
    rw [hdecomp]
    simp
  have hu : ∀ c ∈ w1 ++ a, c ≠ ',' := by
    intro c hc
    rcases List.mem_append.mp hc with h1 | h2
    · exact ws_ne_comma c (hw1 c h1)
    · exact numTok_no_comma a hna c h2
  have hv : ∀ c ∈ b ++ w2, c ≠ ',' := by
    intro c hc
    rcases List.mem_append.mp hc with h1 | h2
    · exact numTok_no_comma b hnb c h1
    · exact ws_ne_comma c (hw2 c h2)
  refine ⟨w1 ++ a, b ++ w2, a, b, ?_, ?_, ?_, hna, hnb⟩
  · rw [hsplit2, splitComma_middle _ _ hu, splitComma_of_no_comma _ hv]
  · have := jsTrimList_sandwich w1 a [] hw1 (by simp) (numTok_no_ws a hna) (numTok_ne_nil a hna)
    simpa using this
  · have := jsTrimList_sandwich [] b w2 (by simp) hw2 (numTok_no_ws b hnb) (numTok_ne_nil b hnb)
    simpa using this

theorem parseCoordinates_ok_intro (s : String) (p1 p2 : List Char)
    (hsp : splitComma s.data = [p1, p2])
    (h1 : jsIsFinite (parseFloatL (jsTrimList p1)) = true)
    (h2 : jsIsFinite (parseFloatL (jsTrimList p2)) = true) :
    parseCoordinates s = .ok ⟨parseFloatL (jsTrimList p1), parseFloatL (jsTrimList p2)⟩ := by
  have hstep : parseCoordinates s
      = (if (jsIsFinite (parseFloatL (jsTrimList p1))
          && jsIsFinite (parseFloatL (jsTrimList p2))) = true
        then Except.ok (⟨parseFloatL (jsTrimList p1), parseFloatL (jsTrimList p2)⟩ : Coord)
        else Except.error "Invalid coordinate format") := by
    rw [parseCoordinates, hsp]
    rfl
  rw [hstep, h1, h2]
  simp

theorem parseCoordinates_ok_elim (s : String) (c : Coord)
    (h : parseCoordinates s = .ok c) :
    ∃ p1 p2, splitComma s.data = [p1, p2] ∧
      c = ⟨parseFloatL (jsTrimList p1), parseFloatL (jsTrimList p2)⟩ ∧
      jsIsFinite (parseFloatL (jsTrimList p1)) = true ∧
      jsIsFinite (parseFloatL (jsTrimList p2)) = true := by
  rw [parseCoordinates] at h
  cases hsp : splitComma s.data with
  | nil =>
    rw [hsp] at h
    replace h : Except.error (ε := String) (α := Coord) "Invalid coordinate format"
        = Except.ok c := h
    exact absurd h (by simp)
  | cons x xs =>
    rw [hsp] at h
    cases xs with
    | nil =>
      replace h : Except.error (ε := String) (α := Coord) "Invalid coordinate format"
          = Except.ok c := h
      exact absurd h (by simp)
    | cons y ys =>
      cases ys with
      | nil =>
        replace h : (if (jsIsFinite (parseFloatL (jsTrimList x))
              && jsIsFinite (parseFloatL (jsTrimList y))) = true
            then Except.ok (⟨parseFloatL (jsTrimList x), parseFloatL (jsTrimList y)⟩ : Coord)
            else Except.error "Invalid coordinate format") = Except.ok c := h
        by_cases hfin : (jsIsFinite (parseFloatL (jsTrimList x))
            && jsIsFinite (parseFloatL (jsTrimList y))) = true
        · rw [if_pos hfin] at h
          injection h with h2
          rcases Bool.and_eq_true_iff.mp hfin with ⟨hf1, hf2⟩
          exact ⟨x, y, rfl, h2.symm, hf1, hf2⟩
        · rw [if_neg hfin] at h
          exact absurd h (by simp)
      | cons z zs =>
        replace h : Except.error (ε := String) (α := Coord) "Invalid coordinate format"
            = Except.ok c := h
        exact absurd h (by simp)

theorem parseCoordinates_error_iff (s : String) :
    parseCoordinates s = .error "Invalid coordinate format" ↔
      ¬((splitComma s.data).length = 2 ∧
        ∀ p ∈ splitComma s.data, jsIsFinite (parseFloatL (jsTrimList p)) = true) := by
  constructor
  · intro h hcond
    obtain ⟨hlen, hfin⟩ := hcond
    cases hsp : splitComma s.data with
    | nil => rw [hsp] at hlen; simp at hlen
    | cons x xs =>
      cases hxs : xs with
      | nil => rw [hsp, hxs] at hlen; simp at hlen
      | cons y ys =>
        cases hys : ys with
        | nil =>
          have hok := parseCoordinates_ok_intro s x y (by rw [hsp, hxs, hys])
            (hfin x (by rw [hsp]; exact List.mem_cons_self x xs))
            (hfin y (by rw [hsp, hxs]; exact List.mem_cons_of_mem x (List.mem_cons_self y ys)))
          rw [hok] at h
          exact absurd h (by simp)
        | cons z zs =>
          rw [hsp, hxs, hys] at hlen
          simp at hlen
  · intro hcond
    cases hres : parseCoordinates s with
    | error e =>
      rw [parseCoordinates] at hres
      cases hsp : splitComma s.data with
      | nil =>
        rw [hsp] at hres
        replace hres : Except.error (ε := String) (α := Coord) "Invalid coordinate format"
            = Except.error e := hres
        injection hres with h2
        rw [← h2]
      | cons x xs =>
        rw [hsp] at hres
        cases xs with
        | nil =>
          replace hres : Except.error (ε := String) (α := Coord) "Invalid coordinate format"
              = Except.error e := hres
          injection hres with h2
          rw [← h2]
        | cons y ys =>
          cases ys with
          | nil =>
            replace hres : (if (jsIsFinite (parseFloatL (jsTrimList x))
                  && jsIsFinite (parseFloatL (jsTrimList y))) = true
                then Except.ok (⟨parseFloatL (jsTrimList x), parseFloatL (jsTrimList y)⟩ : Coord)
                else Except.error "Invalid coordinate format") = Except.error e := hres
            by_cases hfin : (jsIsFinite (parseFloatL (jsTrimList x))
                && jsIsFinite (parseFloatL (jsTrimList y))) = true
            · rw [if_pos hfin] at hres
              exact absurd hres (by simp)
            · rw [if_neg hfin] at hres
              injection hres with h2
              rw [← h2]
          | cons z zs =>
            replace hres : Except.error (ε := String) (α := Coord) "Invalid coordinate format"
                = Except.error e := hres
            injection hres with h2
            rw [← h2]
    | ok c =>
      exfalso
      obtain ⟨p1, p2, hsp, _, hf1, hf2⟩ := parseCoordinates_ok_elim s c hres
      apply hcond
      constructor
      · rw [hsp]; rfl
      · intro p hp
        rw [hsp] at hp
        rcases List.mem_cons.mp hp with rfl | hp2
        · exact hf1
        · rcases List.mem_cons.mp hp2 with rfl | hp3
          · exact hf2
          · simp at hp3

/-! ### Handler dissection lemmas -/

theorem resolveLocation_calls (g : String → GeoResp) (s : String) :
    (resolveLocation g s).2 = [] ∨ (resolveLocation g s).2 = [Call.geocode s] := by
  rw [resolveLocation]
  by_cases hc : isCoordinates s
  · rw [if_pos hc]
    cases hp : parseCoordinates s with
    | ok c => left; rfl
    | error e => left; rfl
  · rw [if_neg hc]
    cases hp : geocodePlace g s with
    | ok v => right; rfl
    | error e => right; rfl

theorem resolveLocation_no_routeFetch (g : String → GeoResp) (s sc ec : String) :
    Call.routeFetch sc ec ∉ (resolveLocation g s).2 := by
  intro h
  rcases resolveLocation_calls g s with h2 | h2 <;> rw [h2] at h <;> simp at h

theorem resolveLocation_geocode_mem (g : String → GeoResp) (s p : String)
    (h : Call.geocode p ∈ (resolveLocation g s).2) :
    p = s ∧ isCoordinates s = false := by
  rw [resolveLocation] at h
  by_cases hc : isCoordinates s
  · exfalso
    rw [if_pos hc] at h
    cases hp : parseCoordinates s with
    | ok c =>
      rw [hp] at h
      replace h : Call.geocode p ∈ ([] : List Call) := h
      simp at h
    | error e =>
      rw [hp] at h
      replace h : Call.geocode p ∈ ([] : List Call) := h
      simp at h
  · rw [if_neg hc] at h
    refine ⟨?_, by simpa using hc⟩
    cases hp : geocodePlace g s with
    | ok v =>
      rw [hp] at h
      replace h : Call.geocode p ∈ [Call.geocode s] := h
      simpa using h
    | error e =>
      rw [hp] at h
      replace h : Call.geocode p ∈ [Call.geocode s] := h
      simpa using h

theorem resolveLocation_coord (g : String → GeoResp) (s : String)
    (hc : isCoordinates s = true) (c : Coord) (hp : parseCoordinates s = .ok c) :
    resolveLocation g s = (.ok (jsNumToString c.lon ++ "," ++ jsNumToString c.lat), []) := by
  rw [resolveLocation, if_pos hc, hp]

theorem routeFinish_calls (sc ec : String) (calls : List Call) (resp : RouteResp) :
    (routeFinish sc ec calls resp).calls = calls := by
  cases resp with
  | transportFail msg => rfl
  | httpResp okf routes =>
    cases okf with
    | false => rfl
    | true =>
      cases routes with
      | nil => rfl
      | cons rt rts => rfl

theorem routeHandler_routeFetch_elim (g : String → GeoResp)
    (r : String → String → RouteResp) (sq tq : Option String) (sc ec : String)
    (hmem : Call.routeFetch sc ec ∈ (routeHandler g r sq tq).calls) :
    (resolveLocation g (sq.getD "")).1 = .ok sc ∧
    (resolveLocation g (tq.getD "")).1 = .ok ec := by
  rw [routeHandler] at hmem
  by_cases hguard : (jsFalsyOpt sq || jsFalsyOpt tq) = true
  · rw [if_pos hguard] at hmem
    replace hmem : Call.routeFetch sc ec
        ∈ (RouteReply.mk 400 (.failure "start and end required") []).calls := hmem
    simp at hmem
  · rw [if_neg hguard] at hmem
    cases h1 : resolveLocation g (sq.getD "") with
    | mk res1 cs1 =>
      have hc1 : (resolveLocation g (sq.getD "")).2 = cs1 := by rw [h1]
      rw [h1] at hmem
      cases res1 with
      | error e =>
        replace hmem : Call.routeFetch sc ec ∈ cs1 := hmem
        rw [← hc1] at hmem
        exact absurd hmem (resolveLocation_no_routeFetch g _ sc ec)
      | ok sc2 =>
        cases h2 : resolveLocation g (tq.getD "") with
        | mk res2 cs2 =>
          have hc2 : (resolveLocation g (tq.getD "")).2 = cs2 := by rw [h2]
          rw [h2] at hmem
          cases res2 with
          | error e =>
            replace hmem : Call.routeFetch sc ec ∈ cs1 ++ cs2 := hmem
            rcases List.mem_append.mp hmem with hm1 | hm2
            · rw [← hc1] at hm1
              exact absurd hm1 (resolveLocation_no_routeFetch g _ sc ec)
            · rw [← hc2] at hm2
              exact absurd hm2 (resolveLocation_no_routeFetch g _ sc ec)
          | ok ec2 =>
            replace hmem : Call.routeFetch sc ec ∈ (routeFinish sc2 ec2
                (cs1 ++ cs2 ++ [Call.routeFetch sc2 ec2]) (r sc2 ec2)).calls := hmem
            rw [routeFinish_calls] at hmem
            have hfin : sc2 = sc ∧ ec2 = ec := by
              rcases List.mem_append.mp hmem with hm1 | hm2
              · rcases List.mem_append.mp hm1 with hm3 | hm4
                · rw [← hc1] at hm3
                  exact absurd hm3 (resolveLocation_no_routeFetch g _ sc ec)
                · rw [← hc2] at hm4
                  exact absurd hm4 (resolveLocation_no_routeFetch g _ sc ec)
              · rw [List.mem_singleton] at hm2
                injection hm2 with e1 e2
                exact ⟨e1.symm, e2.symm⟩
            rw [hfin.1, hfin.2]
            exact ⟨rfl, rfl⟩

theorem routeHandler_geocode_elim (g : String → GeoResp)
    (r : String → String → RouteResp) (sq tq : Option String) (p : String)
    (hmem : Call.geocode p ∈ (routeHandler g r sq tq).calls) :
    isCoordinates p = false ∧ (sq.getD "" = p ∨ tq.getD "" = p) := by
  rw [routeHandler] at hmem
  by_cases hguard : (jsFalsyOpt sq || jsFalsyOpt tq) = true
  · rw [if_pos hguard] at hmem
    replace hmem : Call.geocode p
        ∈ (RouteReply.mk 400 (.failure "start and end required") []).calls := hmem
    simp at hmem
  · rw [if_neg hguard] at hmem
    cases h1 : resolveLocation g (sq.getD "") with
    | mk res1 cs1 =>
      have hc1 : (resolveLocation g (sq.getD "")).2 = cs1 := by rw [h1]
      rw [h1] at hmem
      have hfromS : Call.geocode p ∈ cs1 →
          isCoordinates p = false ∧ (sq.getD "" = p ∨ tq.getD "" = p) := by
        intro hm
        rw [← hc1] at hm
        obtain ⟨rfl, hcoord⟩ := resolveLocation_geocode_mem g _ p hm
        exact ⟨hcoord, Or.inl rfl⟩
      cases res1 with
      | error e => exact hfromS hmem
      | ok sc2 =>
        cases h2 : resolveLocation g (tq.getD "") with
        | mk res2 cs2 =>
          have hc2 : (resolveLocation g (tq.getD "")).2 = cs2 := by rw [h2]
          rw [h2] at hmem
          have hfromE : Call.geocode p ∈ cs2 →
              isCoordinates p = false ∧ (sq.getD "" = p ∨ tq.getD "" = p) := by
            intro hm
            rw [← hc2] at hm
            obtain ⟨rfl, hcoord⟩ := resolveLocation_geocode_mem g _ p hm
            exact ⟨hcoord, Or.inr rfl⟩
          have hboth : Call.geocode p ∈ cs1 ++ cs2 →
              isCoordinates p = false ∧ (sq.getD "" = p ∨ tq.getD "" = p) := by
            intro hm
            rcases List.mem_append.mp hm with hm1 | hm2
            · exact hfromS hm1
            · exact hfromE hm2
          cases res2 with
          | error e => exact hboth hmem
          | ok ec2 =>
            replace hmem : Call.geocode p ∈ (routeFinish sc2 ec2
                (cs1 ++ cs2 ++ [Call.routeFetch sc2 ec2]) (r sc2 ec2)).calls := hmem
            rw [routeFinish_calls] at hmem
            rcases List.mem_append.mp hmem with hm1 | hm2
            · exact hboth hm1
            · simp at hm2

theorem jsIsFinite_fin (x : JSNum) (h : jsIsFinite x = true) : ∃ a, x = .fin a := by
  cases x with
  | nan => simp [jsIsFinite] at h
  | inf b => simp [jsIsFinite] at h
  | fin a => exact ⟨a, rfl⟩

theorem shape_den_dvd (x : ℚ) (h : ∃ (m : ℤ) (k : ℕ), x = (m : ℚ) / 10 ^ k) :
    ∃ K, (x.den : ℕ) ∣ 10 ^ K := by
  obtain ⟨m, k, hx⟩ := h
  refine ⟨k, ?_⟩
  have hx2 : x = Rat.divInt m ((10 : ℤ) ^ k) := by
    rw [Rat.divInt_eq_div, hx]
    push_cast
    rfl
  have hdvd : ((x.den : ℤ)) ∣ (10 : ℤ) ^ k := by
    rw [hx2]
    exact Rat.den_dvd m ((10 : ℤ) ^ k)
  have h10 : ((10 : ℤ) ^ k) = (((10 ^ k : ℕ)) : ℤ) := by push_cast; rfl
  rw [h10] at hdvd
  exact_mod_cast hdvd

theorem jsTrimList_eq_self (l : List Char) (h : ∀ c ∈ l, isJsWhitespace c = false) :
    jsTrimList l = l := by
  cases l with
  | nil => rfl
  | cons c t =>
    have := jsTrimList_sandwich [] (c :: t) [] (by simp) (by simp) h (by simp)
    simpa using this

theorem fin_roundTrip (x : ℚ) (l : List Char) (hx : parseFloatL l = .fin x) :
    parseFloatL (jsNumToString (.fin x)).data = .fin x ∧
    (∀ c ∈ (jsNumToString (.fin x)).data, isDig c = true ∨ c = '.' ∨ c = '-') := by
  obtain ⟨hshape, hb⟩ := parseFloatL_fin l x hx
  exact jsNum_roundTrip x (shape_den_dvd x hshape) hb

theorem renderClass_not_ws (c : Char) (h : isDig c = true ∨ c = '.' ∨ c = '-') :
    isJsWhitespace c = false := by
  rcases h with hd | rfl | rfl
  · exact isDig_not_ws c hd
  · decide
  · decide

theorem renderClass_ne_comma (c : Char) (h : isDig c = true ∨ c = '.' ∨ c = '-') :
    c ≠ ',' := by
  rcases h with hd | rfl | rfl
  · exact isDig_ne_comma c hd
  · decide
  · decide

theorem coordString_reparse (aq bq : ℚ)
    (ha : ∃ l, parseFloatL l = .fin aq) (hb : ∃ l, parseFloatL l = .fin bq) :
    parseCoordinates (jsNumToString (.fin bq) ++ "," ++ jsNumToString (.fin aq))
      = .ok ⟨.fin bq, .fin aq⟩ := by
  obtain ⟨la, hla⟩ := ha
  obtain ⟨lb, hlb⟩ := hb
  obtain ⟨hpa, hca⟩ := fin_roundTrip aq la hla
  obtain ⟨hpb, hcb⟩ := fin_roundTrip bq lb hlb
  have hDbne : (jsNumToString (.fin bq)).data ≠ [] := by
    intro h0
    rw [h0, show parseFloatL [] = JSNum.nan from by decide] at hpb
    simp at hpb
  have hdata : (jsNumToString (.fin bq) ++ "," ++ jsNumToString (.fin aq)).data
      = (jsNumToString (.fin bq)).data ++ ',' :: (jsNumToString (.fin aq)).data := by
    rw [String.data_append, String.data_append]
    simp
  have hsp : splitComma (jsNumToString (.fin bq) ++ "," ++ jsNumToString (.fin aq)).data
      = [(jsNumToString (.fin bq)).data, (jsNumToString (.fin aq)).data] := by
    rw [hdata, splitComma_middle _ _ (fun c hc => renderClass_ne_comma c (hcb c hc)),
      splitComma_of_no_comma _ (fun c hc => renderClass_ne_comma c (hca c hc))]
  have htb : jsTrimList (jsNumToString (.fin bq)).data = (jsNumToString (.fin bq)).data :=
    jsTrimList_eq_self _ (fun c hc => renderClass_not_ws c (hcb c hc))
  have hta : jsTrimList (jsNumToString (.fin aq)).data = (jsNumToString (.fin aq)).data :=
    jsTrimList_eq_self _ (fun c hc => renderClass_not_ws c (hca c hc))
  have := parseCoordinates_ok_intro
    (jsNumToString (.fin bq) ++ "," ++ jsNumToString (.fin aq))
    (jsNumToString (.fin bq)).data (jsNumToString (.fin aq)).data hsp
    (by rw [htb, hpb]; rfl) (by rw [hta, hpa]; rfl)
  rw [this, htb, hta, hpa, hpb]

/-! ### Handler computation lemmas -/

theorem routeHandler_eq_ok (g : String → GeoResp) (r : String → String → RouteResp)
    (sq tq : Option String) (sc ec : String) (cs1 cs2 : List Call)
    (hguard : (jsFalsyOpt sq || jsFalsyOpt tq) = false)
    (h1 : resolveLocation g (sq.getD "") = (.ok sc, cs1))
    (h2 : resolveLocation g (tq.getD "") = (.ok ec, cs2)) :
    routeHandler g r sq tq
      = routeFinish sc ec (cs1 ++ cs2 ++ [Call.routeFetch sc ec]) (r sc ec) := by
  rw [routeHandler, if_neg (by rw [hguard]; simp), h1, h2]

theorem routeHandler_eq_errS (g : String → GeoResp) (r : String → String → RouteResp)
    (sq tq : Option String) (e : String) (cs1 : List Call)
    (hguard : (jsFalsyOpt sq || jsFalsyOpt tq) = false)
    (h1 : resolveLocation g (sq.getD "") = (.error e, cs1)) :
    routeHandler g r sq tq = ⟨500, .failure (serverError e), cs1⟩ := by
  rw [routeHandler, if_neg (by rw [hguard]; simp), h1]

theorem routeHandler_eq_errE (g : String → GeoResp) (r : String → String → RouteResp)
    (sq tq : Option String) (sc : String) (cs1 : List Call) (e : String) (cs2 : List Call)
    (hguard : (jsFalsyOpt sq || jsFalsyOpt tq) = false)
    (h1 : resolveLocation g (sq.getD "") = (.ok sc, cs1))
    (h2 : resolveLocation g (tq.getD "") = (.error e, cs2)) :
    routeHandler g r sq tq = ⟨500, .failure (serverError e), cs1 ++ cs2⟩ := by
  rw [routeHandler, if_neg (by rw [hguard]; simp), h1, h2]

theorem routeHandlerSwapped_eq_ok (g : String → GeoResp) (r : String → String → RouteResp)
    (sq tq : Option String) (sc ec : String) (cs1 cs2 : List Call)
    (hguard : (jsFalsyOpt sq || jsFalsyOpt tq) = false)
    (h1 : resolveLocation g (sq.getD "") = (.ok sc, cs1))
    (h2 : resolveLocation g (tq.getD "") = (.ok ec, cs2)) :
    routeHandlerSwapped g r sq tq
      = routeFinish sc ec (cs2 ++ cs1 ++ [Call.routeFetch sc ec]) (r sc ec) := by
  rw [routeHandlerSwapped, if_neg (by rw [hguard]; simp), h2, h1]

theorem routeHandlerSwapped_eq_errE (g : String → GeoResp) (r : String → String → RouteResp)
    (sq tq : Option String) (e : String) (cs2 : List Call)
    (hguard : (jsFalsyOpt sq || jsFalsyOpt tq) = false)
    (h2 : resolveLocation g (tq.getD "") = (.error e, cs2)) :
    routeHandlerSwapped g r sq tq = ⟨500, .failure (serverError e), cs2⟩ := by
  rw [routeHandlerSwapped, if_neg (by rw [hguard]; simp), h2]

theorem routeHandlerSwapped_eq_errS (g : String → GeoResp) (r : String → String → RouteResp)
    (sq tq : Option String) (ec : String) (cs2 : List Call) (e : String) (cs1 : List Call)
    (hguard : (jsFalsyOpt sq || jsFalsyOpt tq) = false)
    (h2 : resolveLocation g (tq.getD "") = (.ok ec, cs2))
    (h1 : resolveLocation g (sq.getD "") = (.error e, cs1)) :
    routeHandlerSwapped g r sq tq = ⟨500, .failure (serverError e), cs2 ++ cs1⟩ := by
  rw [routeHandlerSwapped, if_neg (by rw [hguard]; simp), h2, h1]

theorem routeFinish_indep (sc ec : String) (ca cb : List Call) (resp : RouteResp) :
    (routeFinish sc ec ca resp).status = (routeFinish sc ec cb resp).status ∧
    (routeFinish sc ec ca resp).body = (routeFinish sc ec cb resp).body := by
  cases resp with
  | transportFail msg => exact ⟨rfl, rfl⟩
  | httpResp okf routes =>
    cases okf with
    | false => exact ⟨rfl, rfl⟩
    | true =>
      cases routes with
      | nil => exact ⟨rfl, rfl⟩
      | cons rt rts => exact ⟨rfl, rfl⟩

theorem applySaves_none (reqs : List (Option String × Option String × Nat)) :
    applySaves ⟨none⟩ reqs = ⟨none⟩ := by
  induction reqs with
  | nil => rfl
  | cons rq rest ih =>
    rw [applySaves]
    have hsave : (saveRouteHandler ⟨none⟩ rq.1 rq.2.1 rq.2.2).2 = ⟨none⟩ := rfl
    rw [hsave]
    exact ih

/-! ### Claim theorems -/

/-- C2: the input classifier accepts a string exactly when its trimmed form
matches the pattern minus-digits-dot-digits, comma, minus-digits-dot-digits
with both minus signs and the fractional parts optional; every other
string, the empty string included, is classified as a place name. -/
theorem c2_classifier_pattern (s : String) :
    isCoordinates s = true ↔ CoordPatternSpec s := by
  rw [isCoordinates]
  exact isCoordinatesL_iff s.data

theorem c2_classifier_pattern_witness : CoordPatternSpec "12.34,56.78" :=
  (c2_classifier_pattern "12.34,56.78").mp (by decide)

/-- C3: the coordinate parser fails with the invalid-format error exactly
when the comma split does not give two parts or a trimmed part does not
parse to a finite number, and on two finite parts it returns the first
value as latitude and the second as longitude. -/
theorem c3_parser_contract (s : String) :
    (parseCoordinates s = .error "Invalid coordinate format" ↔
      ¬((splitComma s.data).length = 2 ∧
        ∀ p ∈ splitComma s.data, jsIsFinite (parseFloatL (jsTrimList p)) = true)) ∧
    (∀ p1 p2, splitComma s.data = [p1, p2] →
      jsIsFinite (parseFloatL (jsTrimList p1)) = true →
      jsIsFinite (parseFloatL (jsTrimList p2)) = true →
      parseCoordinates s
        = .ok ⟨parseFloatL (jsTrimList p1), parseFloatL (jsTrimList p2)⟩) :=
  ⟨parseCoordinates_error_iff s,
   fun p1 p2 hsp h1 h2 => parseCoordinates_ok_intro s p1 p2 hsp h1 h2⟩

theorem c3_parser_contract_witness :
    parseCoordinates "40.0,-73.0"
      = .ok ⟨parseFloatL (jsTrimList "40.0".data), parseFloatL (jsTrimList "-73.0".data)⟩ ∧
    parseCoordinates "abc,def" = .error "Invalid coordinate format" ∧
    parseCoordinates "1,2,3" = .error "Invalid coordinate format" :=
  ⟨(c3_parser_contract "40.0,-73.0").2 "40.0".data "-73.0".data
      (by decide) (by decide) (by decide),
   (c3_parser_contract "abc,def").1.mpr (by decide),
   (c3_parser_contract "1,2,3").1.mpr (by decide)⟩

/-- C5: when start or end is absent or empty, the route handler answers 400
with the message start and end required, and the outbound call list is
empty. -/
theorem c5_missing_params (g : String → GeoResp) (r : String → String → RouteResp)
    (sq tq : Option String) (h : (jsFalsyOpt sq || jsFalsyOpt tq) = true) :
    routeHandler g r sq tq = ⟨400, .failure "start and end required", []⟩ := by
  rw [routeHandler, if_pos h]

theorem c5_missing_params_witness :
    routeHandler geoEnvEmpty routeEnvOne (some "40.0,-73.0") none
      = ⟨400, .failure "start and end required", []⟩ :=
  c5_missing_params geoEnvEmpty routeEnvOne (some "40.0,-73.0") none (by decide)

/-- C6: on a non-empty query for which the geocoding backend answers ok
with zero results, the geocode endpoint answers 400 with an error message
that contains the query text. -/
theorem c6_geocode_zero_results (g : String → GeoResp) (q : String)
    (hq : q ≠ "") (hz : g q = .httpResp true []) :
    ∃ msg, geocodeHandler g (some q) = (400, .failure msg) ∧
      ∃ t u, msg = t ++ q ++ u := by
  have hne : ¬ (q.isEmpty = true) := fun hh => hq ((String.isEmpty_iff q).mp hh)
  have hgp : geocodePlace g q = .error ("Geocoding failed for \"" ++ q
      ++ "\": No location found for \"" ++ q ++ "\"") := by
    rw [geocodePlace, hz]
  have hstep : geocodeHandler g (some q) = (400, .failure ("Geocoding failed for \"" ++ q
      ++ "\": No location found for \"" ++ q ++ "\"")) := by
    show (if q.isEmpty = true
        then ((400 : Nat), GeocodeReply.failure "Query parameter \"q\" is required")
        else match geocodePlace g q with
          | .ok g2 => (200, GeocodeReply.found g2.lat g2.lon g2.display_name)
          | .error e => (400, GeocodeReply.failure e)) = _
    rw [if_neg hne, hgp]
  exact ⟨_, hstep, "Geocoding failed for \"",
    "\": No location found for \"" ++ q ++ "\"", by simp [String.append_assoc]⟩

theorem c6_geocode_zero_results_witness :
    ∃ msg, geocodeHandler geoEnvEmpty (some "NowhereTownXYZ") = (400, .failure msg) ∧
      ∃ t u, msg = t ++ "NowhereTownXYZ" ++ u :=
  c6_geocode_zero_results geoEnvEmpty "NowhereTownXYZ" (by decide) (by decide)

/-- C8: with no persistence store configured, the routes endpoint answers
200 with the empty list whatever save-route requests were processed
before. -/
theorem c8_routes_unconfigured (reqs : List (Option String × Option String × Nat)) :
    routesHandler (applySaves ⟨none⟩ reqs) = (200, []) := by
  rw [applySaves_none]
  rfl

theorem c8_routes_unconfigured_witness :
    routesHandler (applySaves ⟨none⟩ [(some "r1", some "g1", 5), (none, none, 6)])
      = (200, []) :=
  c8_routes_unconfigured [(some "r1", some "g1", 5), (none, none, 6)]

/-- C9: every geocoding call of the route handler is on a parameter value
that the classifier rejected; a classifier-accepted value never reaches
the geocoding client. -/
theorem c9_geocode_guard (g : String → GeoResp) (r : String → String → RouteResp)
    (sq tq : Option String) (p : String)
    (hmem : Call.geocode p ∈ (routeHandler g r sq tq).calls) :
    isCoordinates p = false ∧ (sq = some p ∨ tq = some p) := by
  obtain ⟨hcoord, hor⟩ := routeHandler_geocode_elim g r sq tq p hmem
  have hguard : (jsFalsyOpt sq || jsFalsyOpt tq) = false := by
    cases hgg : (jsFalsyOpt sq || jsFalsyOpt tq) with
    | false => rfl
    | true =>
      exfalso
      rw [routeHandler, if_pos hgg] at hmem
      replace hmem : Call.geocode p ∈ ([] : List Call) := hmem
      simp at hmem
  have hsf1 : jsFalsyOpt sq = false := by
    cases hx : jsFalsyOpt sq with
    | false => rfl
    | true => rw [hx] at hguard; simp at hguard
  have hsf2 : jsFalsyOpt tq = false := by
    cases hx : jsFalsyOpt tq with
    | false => rfl
    | true => rw [hx] at hguard; simp at hguard
  refine ⟨hcoord, ?_⟩
  rcases hor with h | h
  · left
    cases sq with
    | none => exact absurd hsf1 (by decide)
    | some s => exact congrArg some h
  · right
    cases tq with
    | none => exact absurd hsf2 (by decide)
    | some s => exact congrArg some h

theorem c9_geocode_guard_witness :
    isCoordinates "X" = false ∧
    ((some "X" : Option String) = some "X" ∨ (some "1,2" : Option String) = some "X") :=
  c9_geocode_guard geoEnvEmpty routeEnvOne (some "X") (some "1,2") "X" (by decide)

theorem resolveOk_coord_roundtrip (g : String → GeoResp) (s v : String)
    (hc : isCoordinates s = true)
    (hok : (resolveLocation g s).1 = .ok v) :
    ∃ p1 p2 a b, splitComma s.data = [p1, p2] ∧
      parseFloatL (jsTrimList p1) = .fin a ∧
      parseFloatL (jsTrimList p2) = .fin b ∧
      v = jsNumToString (.fin b) ++ "," ++ jsNumToString (.fin a) ∧
      parseCoordinates v = .ok ⟨.fin b, .fin a⟩ := by
  cases hp : parseCoordinates s with
  | error e =>
    exfalso
    rw [resolveLocation, if_pos hc, hp] at hok
    replace hok : Except.error (ε := String) (α := String) e = .ok v := hok
    exact absurd hok (by simp)
  | ok c =>
    have hres := resolveLocation_coord g s hc c hp
    rw [hres] at hok
    replace hok : Except.ok (ε := String)
        (jsNumToString c.lon ++ "," ++ jsNumToString c.lat) = .ok v := hok
    injection hok with hv
    obtain ⟨p1, p2, hsp, hcval, hf1, hf2⟩ := parseCoordinates_ok_elim s c hp
    obtain ⟨a, ha⟩ := jsIsFinite_fin _ hf1
    obtain ⟨b, hb⟩ := jsIsFinite_fin _ hf2
    refine ⟨p1, p2, a, b, hsp, ha, hb, ?_, ?_⟩
    · rw [← hv, hcval]
      show jsNumToString (parseFloatL (jsTrimList p2)) ++ ","
          ++ jsNumToString (parseFloatL (jsTrimList p1))
          = jsNumToString (.fin b) ++ "," ++ jsNumToString (.fin a)
      rw [ha, hb]
    · rw [← hv, hcval]
      show parseCoordinates (jsNumToString (parseFloatL (jsTrimList p2)) ++ ","
          ++ jsNumToString (parseFloatL (jsTrimList p1))) = .ok ⟨.fin b, .fin a⟩
      rw [ha, hb]
      exact coordString_reparse a b ⟨jsTrimList p1, ha⟩ ⟨jsTrimList p2, hb⟩

/-- C1: when the route handler reaches the routing fetch, each parameter
that was classifier-accepted contributes, in its own slot, a coordinate
string that is exactly its two parsed values rendered back in swapped
order, second value first, and reparsing that string recovers the same
two values; this covers the start slot and the end slot alike. -/
theorem c1_coordinate_roundtrip (g : String → GeoResp) (r : String → String → RouteResp)
    (start endv : String) (sc ec : String)
    (hmem : Call.routeFetch sc ec ∈ (routeHandler g r (some start) (some endv)).calls) :
    (isCoordinates start = true →
      ∃ p1 p2 a b, splitComma start.data = [p1, p2] ∧
        parseFloatL (jsTrimList p1) = .fin a ∧
        parseFloatL (jsTrimList p2) = .fin b ∧
        sc = jsNumToString (.fin b) ++ "," ++ jsNumToString (.fin a) ∧
        parseCoordinates sc = .ok ⟨.fin b, .fin a⟩) ∧
    (isCoordinates endv = true →
      ∃ p1 p2 a b, splitComma endv.data = [p1, p2] ∧
        parseFloatL (jsTrimList p1) = .fin a ∧
        parseFloatL (jsTrimList p2) = .fin b ∧
        ec = jsNumToString (.fin b) ++ "," ++ jsNumToString (.fin a) ∧
        parseCoordinates ec = .ok ⟨.fin b, .fin a⟩) := by
  obtain ⟨hok1, hok2⟩ := routeHandler_routeFetch_elim g r (some start) (some endv) sc ec hmem
  exact ⟨fun hc => resolveOk_coord_roundtrip g start sc hc hok1,
    fun hc => resolveOk_coord_roundtrip g endv ec hc hok2⟩

theorem c1_coordinate_roundtrip_witness :
    (∃ p1 p2 a b, splitComma ("40.0,-73.0" : String).data = [p1, p2] ∧
      parseFloatL (jsTrimList p1) = .fin a ∧
      parseFloatL (jsTrimList p2) = .fin b ∧
      "-73,40" = jsNumToString (.fin b) ++ "," ++ jsNumToString (.fin a) ∧
      parseCoordinates "-73,40" = .ok ⟨.fin b, .fin a⟩) ∧
    (∃ p1 p2 a b, splitComma ("41.0,-74.0" : String).data = [p1, p2] ∧
      parseFloatL (jsTrimList p1) = .fin a ∧
      parseFloatL (jsTrimList p2) = .fin b ∧
      "-74,41" = jsNumToString (.fin b) ++ "," ++ jsNumToString (.fin a) ∧
      parseCoordinates "-74,41" = .ok ⟨.fin b, .fin a⟩) :=
  ⟨(c1_coordinate_roundtrip geoEnvEmpty routeEnvOne "40.0,-73.0" "41.0,-74.0"
      "-73,40" "-74,41" (by decide)).1 (by decide),
   (c1_coordinate_roundtrip geoEnvEmpty routeEnvOne "40.0,-73.0" "41.0,-74.0"
      "-73,40" "-74,41" (by decide)).2 (by decide)⟩

/-- C4, amended: after both parameters resolve, the route handler maps the
routing fetch outcomes as transport failure to 500 with the caught
message, non-ok status to 502 Routing service error, ok with an empty
route list to 404 No route found and ok with a route to 200; missing
parameters give 400. The original claim that a transport failure is
surfaced as 502 is refuted by the counterexample. -/
theorem c4_route_error_mapping (g : String → GeoResp) (r : String → String → RouteResp)
    (sq tq : Option String) (sc ec : String) (cs1 cs2 : List Call)
    (hguard : (jsFalsyOpt sq || jsFalsyOpt tq) = false)
    (h1 : resolveLocation g (sq.getD "") = (.ok sc, cs1))
    (h2 : resolveLocation g (tq.getD "") = (.ok ec, cs2)) :
    (∀ rq tq2, (jsFalsyOpt rq || jsFalsyOpt tq2) = true →
      (routeHandler g r rq tq2).status = 400) ∧
    (∀ msg, r sc ec = .transportFail msg →
      (routeHandler g r sq tq).status = 500 ∧
      (routeHandler g r sq tq).body = .failure (serverError msg)) ∧
    (∀ rs, r sc ec = .httpResp false rs →
      (routeHandler g r sq tq).status = 502 ∧
      (routeHandler g r sq tq).body = .failure "Routing service error") ∧
    (r sc ec = .httpResp true [] →
      (routeHandler g r sq tq).status = 404 ∧
      (routeHandler g r sq tq).body = .failure "No route found") ∧
    (∀ rt rts, r sc ec = .httpResp true (rt :: rts) →
      (routeHandler g r sq tq).status = 200) := by
  have heq := routeHandler_eq_ok g r sq tq sc ec cs1 cs2 hguard h1 h2
  refine ⟨fun rq tq2 hg => by rw [routeHandler, if_pos hg], ?_, ?_, ?_, ?_⟩
  · intro msg hmsg
    rw [heq, hmsg]
    exact ⟨rfl, rfl⟩
  · intro rs hrs
    rw [heq, hrs]
    exact ⟨rfl, rfl⟩
  · intro hempty
    rw [heq, hempty]
    exact ⟨rfl, rfl⟩
  · intro rt rts hrt
    rw [heq, hrt]
    exact rfl

theorem c4_route_error_mapping_witness :
    (routeHandler geoEnvEmpty routeEnvBad (some "1,2") (some "3,4")).status = 502 ∧
    (routeHandler geoEnvEmpty routeEnvBad (some "1,2") (some "3,4")).body
      = .failure "Routing service error" :=
  (c4_route_error_mapping geoEnvEmpty routeEnvBad (some "1,2") (some "3,4")
    "2,1" "4,3" [] [] (by decide) (by decide) (by decide)).2.2.1 [] (by decide)

theorem c4_route_error_mapping_cex :
    (routeHandler geoEnvEmpty routeEnvDown (some "1,2") (some "3,4")).status = 500 ∧
    ¬ (routeHandler geoEnvEmpty routeEnvDown (some "1,2") (some "3,4")).status = 502 :=
  ⟨by decide, by decide⟩

/-- C7, amended: resolving end before start always yields the same status
as the original handler, and the same body whenever at least one of the
two resolutions succeeds; when both resolutions fail the bodies carry the
error of whichever resolution ran first, and the counterexample shows
they can differ. -/
theorem c7_resolution_order (g : String → GeoResp) (r : String → String → RouteResp)
    (sq tq : Option String) :
    (routeHandler g r sq tq).status = (routeHandlerSwapped g r sq tq).status ∧
    (((∃ v, (resolveLocation g (sq.getD "")).1 = .ok v) ∨
      (∃ v, (resolveLocation g (tq.getD "")).1 = .ok v)) →
     (routeHandler g r sq tq).body = (routeHandlerSwapped g r sq tq).body) := by
  by_cases hg : (jsFalsyOpt sq || jsFalsyOpt tq) = true
  · rw [routeHandler, routeHandlerSwapped, if_pos hg, if_pos hg]
    exact ⟨rfl, fun _ => rfl⟩
  · replace hg : (jsFalsyOpt sq || jsFalsyOpt tq) = false := Bool.eq_false_iff.mpr hg
    cases h1 : resolveLocation g (sq.getD "") with
    | mk res1 cs1 =>
      cases h2 : resolveLocation g (tq.getD "") with
      | mk res2 cs2 =>
        cases res1 with
        | ok sc =>
          cases res2 with
          | ok ec =>
            rw [routeHandler_eq_ok g r sq tq sc ec cs1 cs2 hg h1 h2,
              routeHandlerSwapped_eq_ok g r sq tq sc ec cs1 cs2 hg h1 h2]
            exact ⟨(routeFinish_indep sc ec _ _ (r sc ec)).1,
              fun _ => (routeFinish_indep sc ec _ _ (r sc ec)).2⟩
          | error e =>
            rw [routeHandler_eq_errE g r sq tq sc cs1 e cs2 hg h1 h2,
              routeHandlerSwapped_eq_errE g r sq tq e cs2 hg h2]
            exact ⟨rfl, fun _ => rfl⟩
        | error e =>
          cases res2 with
          | ok ec =>
            rw [routeHandler_eq_errS g r sq tq e cs1 hg h1,
              routeHandlerSwapped_eq_errS g r sq tq ec cs2 e cs1 hg h2 h1]
            exact ⟨rfl, fun _ => rfl⟩
          | error e2 =>
            rw [routeHandler_eq_errS g r sq tq e cs1 hg h1,
              routeHandlerSwapped_eq_errE g r sq tq e2 cs2 hg h2]
            refine ⟨rfl, ?_⟩
            rintro (⟨v, hv⟩ | ⟨v, hv⟩)
            · replace hv : Except.error (ε := String) (α := String) e = .ok v := hv
              exact absurd hv (by simp)
            · replace hv : Except.error (ε := String) (α := String) e2 = .ok v := hv
              exact absurd hv (by simp)

theorem c7_resolution_order_witness :
    (routeHandler geoEnvFailAB routeEnvOne (some "1,2") (some "B")).status
      = (routeHandlerSwapped geoEnvFailAB routeEnvOne (some "1,2") (some "B")).status ∧
    (routeHandler geoEnvFailAB routeEnvOne (some "1,2") (some "B")).body
      = (routeHandlerSwapped geoEnvFailAB routeEnvOne (some "1,2") (some "B")).body :=
  ⟨(c7_resolution_order geoEnvFailAB routeEnvOne (some "1,2") (some "B")).1,
   (c7_resolution_order geoEnvFailAB routeEnvOne (some "1,2") (some "B")).2
     (Or.inl ⟨"2,1", by decide⟩)⟩

theorem c7_resolution_order_cex :
    ¬ (routeHandler geoEnvFailAB routeEnvOne (some "A") (some "B")).body
      = (routeHandlerSwapped geoEnvFailAB routeEnvOne (some "A") (some "B")).body := by
  decide

/-- C10, amended: a classifier-accepted string always splits into exactly
two parts and neither part parses to NaN, but a part may parse to an
infinity, in which case the parser still reaches its failure branch; the
parser succeeds with the two parsed values exactly when both parts parse
to finite numbers. The counterexample is a 309 digit accepted string that
overflows to infinity. -/
theorem c10_classifier_parser_safety (s : String) (h : isCoordinates s = true) :
    ∃ p1 p2, splitComma s.data = [p1, p2] ∧
      parseFloatL (jsTrimList p1) ≠ .nan ∧ parseFloatL (jsTrimList p2) ≠ .nan ∧
      (jsIsFinite (parseFloatL (jsTrimList p1)) = true →
       jsIsFinite (parseFloatL (jsTrimList p2)) = true →
       parseCoordinates s
         = .ok ⟨parseFloatL (jsTrimList p1), parseFloatL (jsTrimList p2)⟩) := by
  obtain ⟨p1, p2, a, b, hsp, ht1, ht2, hna, hnb⟩ := isCoordinates_split s h
  obtain ⟨ng1, v1, hv1⟩ := numTok_parseFloat a hna
  obtain ⟨ng2, v2, hv2⟩ := numTok_parseFloat b hnb
  refine ⟨p1, p2, hsp, ?_, ?_,
    fun hf1 hf2 => parseCoordinates_ok_intro s p1 p2 hsp hf1 hf2⟩
  · rw [ht1, hv1]
    exact mkNum_ne_nan ng1 v1
  · rw [ht2, hv2]
    exact mkNum_ne_nan ng2 v2

theorem c10_classifier_parser_safety_witness :
    ∃ p1 p2, splitComma ("40.0,-73.0" : String).data = [p1, p2] ∧
      parseFloatL (jsTrimList p1) ≠ .nan ∧ parseFloatL (jsTrimList p2) ≠ .nan ∧
      (jsIsFinite (parseFloatL (jsTrimList p1)) = true →
       jsIsFinite (parseFloatL (jsTrimList p2)) = true →
       parseCoordinates "40.0,-73.0"
         = .ok ⟨parseFloatL (jsTrimList p1), parseFloatL (jsTrimList p2)⟩) :=
  c10_classifier_parser_safety "40.0,-73.0" (by decide)

theorem c10_classifier_parser_cex :
    isCoordinates bigCoordStr = true ∧
    parseCoordinates bigCoordStr = .error "Invalid coordinate format" :=
  ⟨by decide, by decide⟩
